import Mathlib

/-!
Verification development for the crypto-buy-sell-dashboard signal engine.

The JavaScript source is shallowly embedded: candles are records of exact
rationals, detectors are pure Lean functions over candle lists, and the
wall-clock `Date.now()` read by the detectors is threaded as an explicit
`now : Int` parameter.  JS floating point is modelled by `ℚ` in the modules
whose reachable arithmetic never produces NaN/Infinity; the persisted-mode
wavetrend module, whose behaviour hinges on NaN propagation, is modelled
with an explicit IEEE-style value type (`JsNum`).
-/

namespace CryptoDash

/-- One OHLCV candle, i.e. one klines row
`[openTime, open, high, low, close, volume]`.  `open` is a Lean keyword, so
the field is named `opn`. -/
structure Candle where
  openTime : Int
  opn : ℚ
  high : ℚ
  low : ℚ
  close : ℚ
  volume : ℚ
deriving Repr, DecidableEq

/-- `meta` payload of an aggregator cluster signal
(`{ count, indicators }` in `server/signals/index.js`). -/
structure ClusterMeta where
  count : Nat
  indicators : List String
deriving Repr, DecidableEq

/-- A detector signal record.  Detector emissions carry `meta := none`;
only the aggregator's cluster signals attach a `ClusterMeta`. -/
structure Signal where
  type : String
  price : ℚ
  timestamp : Int
  created_at : Int
  indicator : String
  strength : String
  meta : Option ClusterMeta := none
deriving Repr, DecidableEq

/-- Default candle used for (never reached) out-of-range list indexing. -/
def dummyCandle : Candle := ⟨0, 0, 0, 0, 0, 0⟩

/-! ## Aggregator module (`server/signals/index.js`) -/

/-- `getCandlePeriodMs`: mean positive `openTime` delta over the first (up
to) 10 candles, rounded as JS `Math.round` does; `300000` (5 minutes) when
the series is shorter than 2 candles or no positive delta exists. -/
def getCandlePeriodMs (klines : List Candle) : Int :=
  if klines.length < 2 then 300000 else
  let diffs := ((List.range' 1 (min 10 klines.length - 1)).map
    (fun i => (klines.getD i dummyCandle).openTime -
      (klines.getD (i - 1) dummyCandle).openTime)).filter (fun d => 0 < d)
  if diffs.length = 0 then 300000
  else round ((diffs.sum : ℚ) / (diffs.length : ℚ))

/-- The greedy grouping loop shared (textually duplicated) by
`groupSignalsByTime` and `groupPivotLevels` in the source: `cur` is the
(nonempty) current group and `lastA` its last member, mirroring the JS loop
state; an element joins the current group when `joins lastA a` holds,
otherwise a new group is started. -/
def greedyGroupAux {α : Type} (joins : α → α → Prop) [DecidableRel joins] :
    α → List α → List α → List (List α)
  | _, cur, [] => [cur]
  | lastA, cur, a :: rest =>
    if joins lastA a then greedyGroupAux joins a (cur ++ [a]) rest
    else cur :: greedyGroupAux joins a [a] rest

def greedyGroup {α : Type} (joins : α → α → Prop) [DecidableRel joins] :
    List α → List (List α)
  | [] => []
  | a :: rest => greedyGroupAux joins a [a] rest

/-- `groupSignalsByTime`: greedily split a timestamp-sorted signal list into
groups, a signal joining the current group when its timestamp is within
`maxTimeDiff` of the group's last member. -/
def groupSignalsByTime (signals : List Signal) (maxTimeDiff : Int) :
    List (List Signal) :=
  greedyGroup (fun lastSig s => s.timestamp - lastSig.timestamp ≤ maxTimeDiff)
    signals

/-- Stable insertion used to model `Array.prototype.sort` (stable since
ES2019) with comparator `(a, b) => a.timestamp - b.timestamp`. -/
def insertByTs (s : Signal) : List Signal → List Signal
  | [] => [s]
  | a :: t => if s.timestamp < a.timestamp then s :: a :: t else a :: insertByTs s t

/-- Stable sort by `timestamp`. -/
def sortByTimestamp (l : List Signal) : List Signal :=
  l.foldr insertByTs []

/-- `[...new Set(xs)]`: deduplication keeping first occurrences, in order. -/
def uniqueFirst : List String → List String
  | [] => []
  | a :: t => a :: uniqueFirst (t.filter (fun x => x ≠ a))
termination_by l => l.length
decreasing_by
  simp only [List.length_cons]
  exact Nat.lt_succ_of_le (List.length_filter_le _ _)

/-- The aggregator's per-group cluster emission: every group of 3 or more
signals yields one `cluster` signal at the last member's price/timestamp. -/
def mkClusterSignals (now : Int) (typ : String) (groups : List (List Signal)) :
    List Signal :=
  groups.flatMap (fun group =>
    if 3 ≤ group.length then
      match group.getLast? with
      | some latest =>
        [{ type := typ, price := latest.price, timestamp := latest.timestamp,
           created_at := now, indicator := "cluster", strength := "strong",
           meta := some ⟨group.length, uniqueFirst (group.map (·.indicator))⟩ }]
      | none => []
    else [])

/-- `detectClusterSignals` of `server/signals/index.js`: split by direction,
sort by timestamp, group by time proximity, and emit one cluster signal per
group of 3 or more. -/
def detectClusterSignals (now : Int) (signals : List Signal)
    (klines : List Candle) : List Signal :=
  if signals.length < 2 then [] else
  let buySignals := signals.filter (fun s => s.type = "buy")
  let sellSignals := signals.filter (fun s => s.type = "sell")
  let candlePeriod := getCandlePeriodMs klines
  let buyClusters :=
    if 3 ≤ buySignals.length then
      mkClusterSignals now "buy"
        (groupSignalsByTime (sortByTimestamp buySignals) (candlePeriod * 5))
    else []
  let sellClusters :=
    if 3 ≤ sellSignals.length then
      mkClusterSignals now "sell"
        (groupSignalsByTime (sortByTimestamp sellSignals) (candlePeriod * 5))
    else []
  buyClusters ++ sellClusters

/-! ### Structure of the greedy grouping loop -/

section GreedyGroup

variable {α : Type} (joins : α → α → Prop) [DecidableRel joins]

/-- Concatenating the produced groups recovers the input. -/
theorem greedyGroupAux_join :
    ∀ (rest : List α) (lastA : α) (cur : List α),
      (greedyGroupAux joins lastA cur rest).flatten = cur ++ rest := by
  intro rest
  induction rest with
  | nil => intro lastA cur; simp [greedyGroupAux]
  | cons a rest ih =>
    intro lastA cur
    by_cases h : joins lastA a
    · simp [greedyGroupAux, h, ih]
    · simp [greedyGroupAux, h, ih]

theorem greedyGroup_join (l : List α) :
    (greedyGroup joins l).flatten = l := by
  cases l with
  | nil => rfl
  | cons a0 rest => simpa using greedyGroupAux_join joins rest a0 [a0]

/-- Every produced group is nonempty. -/
theorem greedyGroupAux_ne_nil :
    ∀ (rest : List α) (lastA : α) (cur : List α),
      cur ≠ [] → ∀ g ∈ greedyGroupAux joins lastA cur rest, g ≠ [] := by
  intro rest
  induction rest with
  | nil =>
    intro lastA cur hcur g hg
    simp [greedyGroupAux] at hg; simpa [hg] using hcur
  | cons a rest ih =>
    intro lastA cur hcur g hg
    by_cases h : joins lastA a
    · simp only [greedyGroupAux, if_pos h] at hg
      exact ih a (cur ++ [a]) (by simp) g hg
    · simp only [greedyGroupAux, if_neg h, List.mem_cons] at hg
      rcases hg with rfl | hg
      · exact hcur
      · exact ih a [a] (by simp) g hg

theorem greedyGroup_ne_nil (l : List α) :
    ∀ g ∈ greedyGroup joins l, g ≠ [] := by
  cases l with
  | nil => intro g hg; simp [greedyGroup] at hg
  | cons a0 rest =>
    exact greedyGroupAux_ne_nil joins rest a0 [a0] (by simp)

/-- Within each produced group, each member satisfies the join test against
the member right before it. -/
theorem greedyGroupAux_chain :
    ∀ (rest : List α) (lastA : α) (cur : List α),
      cur.Chain' joins → cur.getLast? = some lastA →
      ∀ g ∈ greedyGroupAux joins lastA cur rest, g.Chain' joins := by
  intro rest
  induction rest with
  | nil =>
    intro lastA cur hchain _ g hg
    simp [greedyGroupAux] at hg; simpa [hg] using hchain
  | cons a rest ih =>
    intro lastA cur hchain hlast g hg
    by_cases h : joins lastA a
    · simp only [greedyGroupAux, if_pos h] at hg
      refine ih a (cur ++ [a]) ?_ (by simp) g hg
      rw [List.chain'_append]
      refine ⟨hchain, List.chain'_singleton a, ?_⟩
      intro x hx y hy
      rw [hlast] at hx
      simp at hx hy
      subst hx; subst hy; exact h
    · simp only [greedyGroupAux, if_neg h, List.mem_cons] at hg
      rcases hg with rfl | hg
      · exact hchain
      · exact ih a [a] (List.chain'_singleton a) (by simp) g hg

theorem greedyGroup_chain (l : List α) :
    ∀ g ∈ greedyGroup joins l, g.Chain' joins := by
  cases l with
  | nil => intro g hg; simp [greedyGroup] at hg
  | cons a0 rest =>
    exact greedyGroupAux_chain joins rest a0 [a0]
      (List.chain'_singleton a0) (by simp)

/-- The first produced group starts where the current group starts. -/
theorem greedyGroupAux_head :
    ∀ (rest : List α) (lastA : α) (cur : List α), cur ≠ [] →
      ∃ g gs, greedyGroupAux joins lastA cur rest = g :: gs ∧
        g.head? = cur.head? := by
  intro rest
  induction rest with
  | nil =>
    intro lastA cur _
    exact ⟨cur, [], rfl, rfl⟩
  | cons a rest ih =>
    intro lastA cur hcur
    by_cases h : joins lastA a
    · obtain ⟨g, gs, heq, hhead⟩ := ih a (cur ++ [a]) (by simp)
      refine ⟨g, gs, ?_, ?_⟩
      · simp only [greedyGroupAux, if_pos h]; exact heq
      · rw [hhead]; cases cur with
        | nil => exact absurd rfl hcur
        | cons x t => simp
    · exact ⟨cur, greedyGroupAux joins a [a] rest,
        by simp only [greedyGroupAux, if_neg h], rfl⟩

/-- A new group is started exactly when the join test against the current
group's last member fails: consecutive groups are separated by a failing
join test. -/
theorem greedyGroupAux_gap :
    ∀ (rest : List α) (lastA : α) (cur : List α),
      cur.getLast? = some lastA →
      (greedyGroupAux joins lastA cur rest).Chain'
        (fun g₁ g₂ => ∀ x ∈ g₁.getLast?, ∀ y ∈ g₂.head?, ¬ joins x y) := by
  intro rest
  induction rest with
  | nil =>
    intro lastA cur _
    exact List.chain'_singleton cur
  | cons a rest ih =>
    intro lastA cur hlast
    by_cases h : joins lastA a
    · simp only [greedyGroupAux, if_pos h]
      exact ih a (cur ++ [a]) (by simp)
    · simp only [greedyGroupAux, if_neg h]
      rw [List.chain'_cons']
      constructor
      · intro g' hg' x hx y hy
        obtain ⟨g, gs, heq, hhead⟩ := greedyGroupAux_head joins rest a [a] (by simp)
        rw [heq] at hg'
        simp only [List.head?_cons, Option.mem_def, Option.some.injEq] at hg'
        subst hg'
        rw [hlast] at hx
        simp only [Option.mem_def, Option.some.injEq] at hx
        subst hx
        rw [hhead] at hy
        simp only [List.head?_cons, Option.mem_def, Option.some.injEq] at hy
        subst hy
        exact h
      · exact ih a [a] (by simp)

theorem greedyGroup_gap (l : List α) :
    (greedyGroup joins l).Chain'
      (fun g₁ g₂ => ∀ x ∈ g₁.getLast?, ∀ y ∈ g₂.head?, ¬ joins x y) := by
  cases l with
  | nil => exact List.chain'_nil
  | cons a0 rest => exact greedyGroupAux_gap joins rest a0 [a0] (by simp)

end GreedyGroup

/-- The candle-period estimate, phrased as the spec does: the mean positive
`openTime` delta over the first 10 candles, `300000` ms when indeterminate. -/
def specCandlePeriod (klines : List Candle) : Int :=
  let first10 : List Int := (klines.take 10).map (·.openTime)
  let deltas : List Int := (first10.zip first10.tail).map (fun p => p.2 - p.1)
  let pos : List Int := deltas.filter (fun d => 0 < d)
  if pos = [] then 300000 else round ((pos.sum : ℚ) / (pos.length : ℚ))

theorem getCandlePeriodMs_eq_spec (klines : List Candle) :
    getCandlePeriodMs klines = specCandlePeriod klines := by
  by_cases hlen : klines.length < 2
  · have hz : ((klines.take 10).map (·.openTime)).zip
        (((klines.take 10).map (·.openTime)).tail) = [] := by
      match klines, hlen with
      | [], _ => rfl
      | [c], _ => rfl
    simp only [getCandlePeriodMs, specCandlePeriod, hz]
    simp [hlen]
  · have hdeltas :
        ((List.range' 1 (min 10 klines.length - 1)).map
          (fun i => (klines.getD i dummyCandle).openTime -
            (klines.getD (i - 1) dummyCandle).openTime)) =
        ((((klines.take 10).map (·.openTime)).zip
          (((klines.take 10).map (·.openTime)).tail)).map
            (fun p => p.2 - p.1)) := by
      have hm : ((klines.take 10).map (·.openTime)).length = min 10 klines.length := by
        simp [List.length_take]
      apply List.ext_getElem
      · simp [List.length_zip, hm]
      · intro i h1 h2
        have hi : i + 1 < min 10 klines.length := by
          simp at h1; omega
        have hik : 1 + i < klines.length := by omega
        have hik' : i < klines.length := by omega
        simp only [List.getElem_map, List.getElem_range', List.getElem_zip,
          List.getElem_tail, one_mul]
        have hsub : 1 + i - 1 = i := by omega
        rw [hsub]
        rw [List.getD_eq_getElem klines dummyCandle hik,
            List.getD_eq_getElem klines dummyCandle hik']
        simp only [List.getElem_map, List.getElem_take]
        have h1i : 1 + i = i + 1 := by omega
        simp [h1i]
    simp only [getCandlePeriodMs, specCandlePeriod, if_neg hlen, hdeltas]
    rcases heq : ((((klines.take 10).map (·.openTime)).zip
          (((klines.take 10).map (·.openTime)).tail)).map
            (fun p => p.2 - p.1)).filter (fun d => 0 < d) with _ | ⟨d, ds⟩
    · rw [heq]; simp
    · rw [heq]; simp

/-- The `buyGroups` intermediate computed inside `detectClusterSignals`: the
buy-direction signals, sorted by timestamp, grouped with window
`5 × getCandlePeriodMs`. -/
def buyGroups (klines : List Candle) (signals : List Signal) : List (List Signal) :=
  groupSignalsByTime (sortByTimestamp (signals.filter (fun s => s.type = "buy")))
    (getCandlePeriodMs klines * 5)

/-- Ten candles with uniform 1 ms spacing (estimated candle period 1 ms). -/
def kl10 : List Candle :=
  (List.range 10).map (fun i => ⟨(i : Int), 1, 1, 1, 1, 0⟩)

/-- A buy signal at millisecond `t`, as a detector would emit it. -/
def buyAt (t : Int) : Signal :=
  ⟨"buy", 1, t, 0, "wavetrend-crossover", "medium", none⟩

/-- C5, counterexample to grouping by the FIRST member: with candle period
1 ms (window 5 ms) and buy signals at t = 0, 4, 8, the code puts all three in
one group (and emits a cluster), although t = 8 is 8 ms — more than the
5 ms window — after the group's first member. -/
theorem grouping_first_member_counterexample :
    getCandlePeriodMs kl10 = 1 ∧
    buyGroups kl10 [buyAt 0, buyAt 4, buyAt 8] =
      [[buyAt 0, buyAt 4, buyAt 8]] ∧
    (buyAt 8).timestamp - (buyAt 0).timestamp > getCandlePeriodMs kl10 * 5 ∧
    detectClusterSignals 7 [buyAt 0, buyAt 4, buyAt 8] kl10 ≠ [] := by
  with_unfolding_all decide

/-- C5 (amended): persisted-mode cluster aggregation groups the sorted
same-direction signals greedily so that a signal joins the current group
exactly when its timestamp lies within `5 × estimatedCandlePeriod` of the
group's LAST member's timestamp: the groups concatenate back to the sorted
input, within a group every member is within the window of its predecessor,
consecutive groups are separated by more than the window, and the estimated
candle period is the rounded mean positive timestamp delta over the first 10
candles, defaulting to 300000 ms when no positive delta exists. -/
theorem grouping_greedy_by_last_member (klines : List Candle) (signals : List Signal) :
    (buyGroups klines signals).flatten
      = sortByTimestamp (signals.filter (fun s => s.type = "buy")) ∧
    (∀ g ∈ buyGroups klines signals, g ≠ [] ∧
      g.Chain' (fun a b => b.timestamp - a.timestamp ≤ getCandlePeriodMs klines * 5)) ∧
    (buyGroups klines signals).Chain'
      (fun g₁ g₂ => ∀ a ∈ g₁.getLast?, ∀ b ∈ g₂.head?,
        getCandlePeriodMs klines * 5 < b.timestamp - a.timestamp) ∧
    getCandlePeriodMs klines = specCandlePeriod klines := by
  refine ⟨greedyGroup_join _ _, ?_, ?_, getCandlePeriodMs_eq_spec klines⟩
  · intro g hg
    exact ⟨greedyGroup_ne_nil _ _ g hg, greedyGroup_chain _ _ g hg⟩
  · refine (greedyGroup_gap _ _).imp ?_
    intro g₁ g₂ h x hx y hy
    have := h x hx y hy
    omega

/-- Witness for the amended C5 at a concrete input. -/
theorem grouping_greedy_by_last_member_witness :
    (buyGroups kl10 [buyAt 0, buyAt 4, buyAt 8]).flatten
      = sortByTimestamp (([buyAt 0, buyAt 4, buyAt 8]).filter (fun s => s.type = "buy")) ∧
    (∀ g ∈ buyGroups kl10 [buyAt 0, buyAt 4, buyAt 8], g ≠ [] ∧
      g.Chain' (fun a b => b.timestamp - a.timestamp ≤ getCandlePeriodMs kl10 * 5)) ∧
    (buyGroups kl10 [buyAt 0, buyAt 4, buyAt 8]).Chain'
      (fun g₁ g₂ => ∀ a ∈ g₁.getLast?, ∀ b ∈ g₂.head?,
        getCandlePeriodMs kl10 * 5 < b.timestamp - a.timestamp) ∧
    getCandlePeriodMs kl10 = specCandlePeriod kl10 :=
  grouping_greedy_by_last_member kl10 [buyAt 0, buyAt 4, buyAt 8]

/-! ## Structure-breakout module (`breakouts.js`) -/

/-- A pivot point: a local extremum of `high` (resistance) or `low`
(support). -/
structure PivotPoint where
  type : String
  level : ℚ
  index : Nat
  timestamp : Int
deriving Repr, DecidableEq

/-- A support/resistance zone formed from a group of nearby pivots. -/
structure Zone where
  type : String
  level : ℚ
  strength : ℚ
  count : Nat
  pivots : List PivotPoint
deriving Repr, DecidableEq

/-- The candle at index `i` is a high pivot: no strictly greater `high`
exists in the `2*lookback+1` window centred on `i`. -/
def isHighPivot (klines : List Candle) (lookback i : Nat) : Prop :=
  ∀ j ∈ List.range' (i - lookback) (2 * lookback + 1), j ≠ i →
    ¬ ((klines.getD i dummyCandle).high < (klines.getD j dummyCandle).high)

instance (klines : List Candle) (lookback i : Nat) :
    Decidable (isHighPivot klines lookback i) :=
  inferInstanceAs (Decidable (∀ j ∈ List.range' (i - lookback) (2 * lookback + 1),
    j ≠ i → ¬ ((klines.getD i dummyCandle).high < (klines.getD j dummyCandle).high)))

/-- The candle at index `i` is a low pivot: no strictly smaller `low`
exists in the window. -/
def isLowPivot (klines : List Candle) (lookback i : Nat) : Prop :=
  ∀ j ∈ List.range' (i - lookback) (2 * lookback + 1), j ≠ i →
    ¬ ((klines.getD j dummyCandle).low < (klines.getD i dummyCandle).low)

instance (klines : List Candle) (lookback i : Nat) :
    Decidable (isLowPivot klines lookback i) :=
  inferInstanceAs (Decidable (∀ j ∈ List.range' (i - lookback) (2 * lookback + 1),
    j ≠ i → ¬ ((klines.getD j dummyCandle).low < (klines.getD i dummyCandle).low)))

/-- `findPivotPoints`: scan indices `lookback ≤ i < length - lookback` and
emit resistance/support pivots. -/
def findPivotPoints (klines : List Candle) (lookback : Nat) : List PivotPoint :=
  if klines.length < 2 * lookback + 1 then [] else
  (List.range' lookback (klines.length - 2 * lookback)).flatMap (fun i =>
    let c := klines.getD i dummyCandle
    (if isHighPivot klines lookback i then
      [{ type := "resistance", level := c.high, index := i,
         timestamp := c.openTime }] else []) ++
    (if isLowPivot klines lookback i then
      [{ type := "support", level := c.low, index := i,
         timestamp := c.openTime }] else []))

/-- The join test of `groupPivotLevels`:
`Math.abs(cur.level - last.level) / last.level <= tolerance`.  In JS a zero
`last.level` makes the quotient `Infinity`/`NaN` and the test false, hence
the explicit `last.level ≠ 0` conjunct (`ℚ` division by zero would yield 0). -/
def pivotJoins (tolerance : ℚ) (lastP cur : PivotPoint) : Prop :=
  lastP.level ≠ 0 ∧ |cur.level - lastP.level| / lastP.level ≤ tolerance

instance (tolerance : ℚ) : DecidableRel (pivotJoins tolerance) :=
  fun lastP cur => inferInstanceAs (Decidable
    (lastP.level ≠ 0 ∧ |cur.level - lastP.level| / lastP.level ≤ tolerance))

/-- Stable insertion modelling `[...pivots].sort((a, b) => a.level - b.level)`. -/
def insertByLevel (p : PivotPoint) : List PivotPoint → List PivotPoint
  | [] => [p]
  | a :: t => if p.level < a.level then p :: a :: t else a :: insertByLevel p t

def sortByLevel (l : List PivotPoint) : List PivotPoint :=
  l.foldr insertByLevel []

/-- Reduce a pivot group to a Zone: average level, majority type, strength
`min 1 (count/3)`. -/
def zoneOfGroup (group : List PivotPoint) : Zone :=
  { type := if (group.length : ℚ) / 2 <
        ((group.filter (fun p => p.type = "support")).length : ℚ)
      then "support" else "resistance",
    level := (group.map (·.level)).sum / (group.length : ℚ),
    strength := min 1 ((group.length : ℚ) / 3),
    count := group.length,
    pivots := group }

/-- `groupPivotLevels`: sort pivots by level and greedily group while the
next level is within `tolerance` (relative) of the group's last member. -/
def groupPivotLevels (pivots : List PivotPoint) (tolerance : ℚ := 1/200) :
    List Zone :=
  (greedyGroup (pivotJoins tolerance) (sortByLevel pivots)).map zoneOfGroup

/-- `detectSignals` of `breakouts.js`. -/
def breakoutDetectSignals (now : Int) (klines : List Candle) : List Signal :=
  if klines.length < 50 then [] else
  let pivots := findPivotPoints klines 5
  let zones := groupPivotLevels pivots
  let strongZones := zones.filter (fun zone => 2 ≤ zone.count)
  let recentCandles := klines.drop (klines.length - 10)
  (List.range' 1 (recentCandles.length - 1)).flatMap (fun i =>
    let prevClose := (recentCandles.getD (i - 1) dummyCandle).close
    let c := recentCandles.getD i dummyCandle
    strongZones.flatMap (fun zone =>
      (if zone.type = "resistance" ∧ prevClose < zone.level ∧
          zone.level * (1005/1000) < c.close then
        [{ type := "buy", price := c.close, timestamp := c.openTime,
           created_at := now, indicator := "resistance-breakout",
           strength := if 3 ≤ zone.count then "strong" else "medium" }]
       else []) ++
      (if zone.type = "support" ∧ zone.level < prevClose ∧
          c.close < zone.level * (995/1000) then
        [{ type := "sell", price := c.close, timestamp := c.openTime,
           created_at := now, indicator := "support-breakout",
           strength := if 3 ≤ zone.count then "strong" else "medium" }]
       else [])))

/-! ### C8: zone grouping tolerance -/

theorem insertByLevel_head (p : PivotPoint) (l : List PivotPoint) :
    (insertByLevel p l).head? = some p ∨ (insertByLevel p l).head? = l.head? := by
  cases l with
  | nil => left; rfl
  | cons a t =>
    by_cases h : p.level < a.level
    · left; simp [insertByLevel, h]
    · right; simp [insertByLevel, h]

theorem insertByLevel_sorted (p : PivotPoint) (l : List PivotPoint)
    (h : l.Chain' (fun a b => a.level ≤ b.level)) :
    (insertByLevel p l).Chain' (fun a b => a.level ≤ b.level) := by
  induction l with
  | nil => simp [insertByLevel]
  | cons a t ih =>
    by_cases hpa : p.level < a.level
    · simp only [insertByLevel, if_pos hpa]
      exact h.cons (le_of_lt hpa)
    · simp only [insertByLevel, if_neg hpa]
      rw [List.chain'_cons']
      refine ⟨?_, ih h.tail⟩
      intro y hy
      rcases insertByLevel_head p t with hh | hh
      · rw [hh] at hy
        simp only [Option.mem_def, Option.some.injEq] at hy
        subst hy
        exact le_of_not_lt hpa
      · rw [hh] at hy
        exact (List.chain'_cons'.mp h).1 y hy

theorem sortByLevel_sorted (l : List PivotPoint) :
    (sortByLevel l).Chain' (fun a b => a.level ≤ b.level) := by
  induction l with
  | nil => exact List.chain'_nil
  | cons p t ih => exact insertByLevel_sorted p (sortByLevel t) ih

/-- A chain on a concatenation restricts to a chain on every component. -/
theorem chain'_of_flatten {α : Type} {R : α → α → Prop} :
    ∀ (gs : List (List α)), gs.flatten.Chain' R → ∀ g ∈ gs, g.Chain' R := by
  intro gs
  induction gs with
  | nil => intro _ g hg; simp at hg
  | cons g0 gs ih =>
    intro h g hg
    rw [List.flatten_cons] at h
    rcases List.mem_cons.mp hg with rfl | hg
    · exact h.left_of_append
    · exact ih h.right_of_append g hg

/-- A resistance pivot at level `lvl`, index and timestamp `i`. -/
def pvAt (lvl : ℚ) (i : Nat) : PivotPoint :=
  ⟨"resistance", lvl, i, (i : Int)⟩

/-- C8, counterexample to the pairwise-tolerance reading: pivot levels
100, 100.5 and 101 each pass the 0.5% test against their predecessor, so
they land in one zone, yet 100 and 101 differ by 1% of their minimum. -/
theorem zone_pairwise_tolerance_counterexample :
    ∃ z ∈ groupPivotLevels [pvAt 100 0, pvAt (201/2) 1, pvAt 101 2],
      ∃ p ∈ z.pivots, ∃ q ∈ z.pivots,
        ¬ (|p.level - q.level| / min p.level q.level ≤ 1/200) := by
  with_unfolding_all decide

/-- C8 (amended): every Zone produced by the pivot-grouping step has a
nonempty pivot list, ascending by level, in which every pivot passes the
code's relative-tolerance test (`|Δlevel| / previous level ≤ tolerance`)
against its immediate predecessor — pairwise closeness is only guaranteed
between consecutive members, not between arbitrary pairs. -/
theorem zone_pivots_chain_tolerance (pivots : List PivotPoint) (tolerance : ℚ) :
    ∀ z ∈ groupPivotLevels pivots tolerance,
      z.pivots ≠ [] ∧
      z.pivots.Chain' (fun a b => a.level ≤ b.level) ∧
      z.pivots.Chain' (pivotJoins tolerance) ∧
      z.count = z.pivots.length := by
  intro z hz
  simp only [groupPivotLevels, List.mem_map] at hz
  obtain ⟨g, hg, rfl⟩ := hz
  refine ⟨greedyGroup_ne_nil _ _ g hg, ?_, greedyGroup_chain _ _ g hg, rfl⟩
  refine chain'_of_flatten _ ?_ g hg
  rw [greedyGroup_join]
  exact sortByLevel_sorted pivots

/-- Witness for the amended C8 at a concrete input: the single zone built
from pivot levels 100, 100.5, 101. -/
theorem zone_pivots_chain_tolerance_witness :
    (Zone.mk "resistance" (201/2) 1 3
        [pvAt 100 0, pvAt (201/2) 1, pvAt 101 2]).pivots ≠ [] ∧
    (Zone.mk "resistance" (201/2) 1 3
        [pvAt 100 0, pvAt (201/2) 1, pvAt 101 2]).pivots.Chain'
      (fun a b => a.level ≤ b.level) ∧
    (Zone.mk "resistance" (201/2) 1 3
        [pvAt 100 0, pvAt (201/2) 1, pvAt 101 2]).pivots.Chain'
      (pivotJoins (1/200)) ∧
    (Zone.mk "resistance" (201/2) 1 3
        [pvAt 100 0, pvAt (201/2) 1, pvAt 101 2]).count =
      (Zone.mk "resistance" (201/2) 1 3
        [pvAt 100 0, pvAt (201/2) 1, pvAt 101 2]).pivots.length :=
  zone_pivots_chain_tolerance [pvAt 100 0, pvAt (201/2) 1, pvAt 101 2] (1/200)
    (Zone.mk "resistance" (201/2) 1 3 [pvAt 100 0, pvAt (201/2) 1, pvAt 101 2])
    (by with_unfolding_all decide)

/-! ## Moving-average crossover module (`ma_crossover.js`) -/

/-- JS relational `a <= b` after `null → 0` coercion (`null` compares as
`+0` under relational operators).  In this module every entry the loop
actually compares is in bounds and non-`null`, so the coercion is never
observable. -/
def jsLe (a b : Option ℚ) : Prop := a.getD 0 ≤ b.getD 0

/-- JS relational `a < b` after `null → 0` coercion. -/
def jsLt (a b : Option ℚ) : Prop := a.getD 0 < b.getD 0

instance (a b : Option ℚ) : Decidable (jsLe a b) :=
  inferInstanceAs (Decidable (a.getD 0 ≤ b.getD 0))

instance (a b : Option ℚ) : Decidable (jsLt a b) :=
  inferInstanceAs (Decidable (a.getD 0 < b.getD 0))

/-- `calculateSMA`: `null` before index `period - 1`, else the mean of the
trailing `period` values. -/
def calculateSMA (prices : List ℚ) (period : Nat) : List (Option ℚ) :=
  (List.range prices.length).map (fun i =>
    if i < period - 1 then none
    else some (((List.range period).map (fun j => prices.getD (i - j) 0)).sum
      / (period : ℚ)))

/-- EMA recurrence tail: `v = x*k + prev*(1-k)` for each further value. -/
def emaGo (k : ℚ) : ℚ → List ℚ → List ℚ
  | _, [] => []
  | prev, x :: xs => (x * k + prev * (1 - k)) :: emaGo k (x * k + prev * (1 - k)) xs

/-- `calculateEMA` of `ma_crossover.js`: all-`null` when shorter than
`period`, else `null` padding, an SMA seed at index `period - 1`, and the
EMA recurrence afterwards. -/
def maCalculateEMA (prices : List ℚ) (period : Nat) : List (Option ℚ) :=
  if prices.length < period then List.replicate prices.length none
  else
    let k : ℚ := 2 / ((period : ℚ) + 1)
    let seed := (prices.take period).sum / (period : ℚ)
    (List.replicate (period - 1) (none : Option ℚ)) ++ [some seed] ++
      (emaGo k seed (prices.drop period)).map some

/-- Per-index emission of the MA-crossover detector's scan loop. -/
def maEmit (now : Int) (klines : List Candle) (i : Nat) : List Signal :=
  let closes := klines.map (·.close)
  let sma50 := calculateSMA closes 50
  let sma200 := calculateSMA closes 200
  let ema20 := maCalculateEMA closes 20
  let ema50 := maCalculateEMA closes 50
  let c := klines.getD i dummyCandle
  let timestamp := c.openTime
  let price := c.close
  (if 200 < i ∧ jsLe (sma50.getD (i-1) none) (sma200.getD (i-1) none) ∧
      jsLt (sma200.getD i none) (sma50.getD i none) then
    [⟨"buy", price, timestamp, now, "golden-cross", "strong", none⟩] else []) ++
  (if 200 < i ∧ jsLe (sma200.getD (i-1) none) (sma50.getD (i-1) none) ∧
      jsLt (sma50.getD i none) (sma200.getD i none) then
    [⟨"sell", price, timestamp, now, "death-cross", "strong", none⟩] else []) ++
  (if 50 < i ∧ jsLe (ema20.getD (i-1) none) (ema50.getD (i-1) none) ∧
      jsLt (ema50.getD i none) (ema20.getD i none) then
    [⟨"buy", price, timestamp, now, "ema-crossover", "medium", none⟩] else []) ++
  (if 50 < i ∧ jsLe (ema50.getD (i-1) none) (ema20.getD (i-1) none) ∧
      jsLt (ema20.getD i none) (ema50.getD i none) then
    [⟨"sell", price, timestamp, now, "ema-crossover", "medium", none⟩] else []) ++
  (if 20 < i ∧ jsLe (some ((klines.getD (i-1) dummyCandle).close)) (ema20.getD (i-1) none) ∧
      jsLt (ema20.getD i none) (some price) then
    [⟨"buy", price, timestamp, now, "price-ema-cross", "weak", none⟩] else []) ++
  (if 20 < i ∧ jsLe (ema20.getD (i-1) none) (some ((klines.getD (i-1) dummyCandle).close)) ∧
      jsLt (some price) (ema20.getD i none) then
    [⟨"sell", price, timestamp, now, "price-ema-cross", "weak", none⟩] else [])

/-- `detectSignals` of `ma_crossover.js`: guard at 100 candles, scan indices
from 200 (so series of 100–200 candles yield nothing). -/
def maDetectSignals (now : Int) (klines : List Candle) : List Signal :=
  if klines.length < 100 then [] else
  (List.range' 200 (klines.length - 200)).flatMap (maEmit now klines)

/-! ### C9: unique golden cross -/

theorem filter_flatMap {α β : Type} (l : List α) (g : α → List β) (p : β → Bool) :
    (l.flatMap g).filter p = l.flatMap (fun a => (g a).filter p) := by
  induction l with
  | nil => rfl
  | cons a t ih => simp [List.flatMap_cons, List.filter_append, ih]

/-- A `flatMap` whose blocks are all empty except a unique one. -/
theorem flatMap_eq_single {β : Type} (g : Nat → List β) (s : β) :
    ∀ (l : List Nat) (j : Nat), l.Nodup → j ∈ l → g j = [s] →
      (∀ i ∈ l, i ≠ j → g i = []) → l.flatMap g = [s] := by
  intro l
  induction l with
  | nil => intro j _ hj; simp at hj
  | cons a t ih =>
    intro j hnd hj hgj hother
    rw [List.flatMap_cons]
    rcases List.mem_cons.mp hj with rfl | hjt
    · have ht : t.flatMap g = [] := by
        rw [List.flatMap_eq_nil_iff]
        intro x hx
        refine hother x (List.mem_cons_of_mem _ hx) ?_
        intro hxa
        exact (List.nodup_cons.mp hnd).1 (hxa ▸ hx)
      rw [hgj, ht, List.append_nil]
    · have ha : g a = [] := by
        refine hother a (List.mem_cons_self a t) ?_
        intro haj
        exact (List.nodup_cons.mp hnd).1 (haj ▸ hjt)
      rw [ha, List.nil_append]
      exact ih j (List.nodup_cons.mp hnd).2 hjt hgj
        (fun i hi => hother i (List.mem_cons_of_mem _ hi))

/-- The golden-cross portion of a per-index MA emission. -/
theorem maEmit_filter_golden (now : Int) (klines : List Candle) (i : Nat) :
    (maEmit now klines i).filter (fun s => s.indicator = "golden-cross") =
      if 200 < i ∧
          jsLe ((calculateSMA (klines.map (·.close)) 50).getD (i-1) none)
               ((calculateSMA (klines.map (·.close)) 200).getD (i-1) none) ∧
          jsLt ((calculateSMA (klines.map (·.close)) 200).getD i none)
               ((calculateSMA (klines.map (·.close)) 50).getD i none) then
        [⟨"buy", (klines.getD i dummyCandle).close,
          (klines.getD i dummyCandle).openTime, now, "golden-cross", "strong",
          none⟩]
      else [] := by
  unfold maEmit
  simp only [List.filter_append, apply_ite (List.filter _), List.filter_singleton,
    List.filter_nil]
  simp

/-- C9: in a 250-candle series where SMA50 stays at or below SMA200 on
indices 201–209 and strictly above it on indices 210–249, the MA-crossover
detector emits exactly one golden-cross signal: a strong Buy stamped with
the openTime of candle 210. -/
theorem ma_golden_cross_exactly_once (klines : List Candle) (now : Int)
    (hlen : klines.length = 250)
    (h1 : ∀ i ∈ List.range' 201 9,
      jsLe ((calculateSMA (klines.map (·.close)) 50).getD i none)
           ((calculateSMA (klines.map (·.close)) 200).getD i none))
    (h2 : ∀ i ∈ List.range' 210 40,
      jsLt ((calculateSMA (klines.map (·.close)) 200).getD i none)
           ((calculateSMA (klines.map (·.close)) 50).getD i none)) :
    (maDetectSignals now klines).filter (fun s => s.indicator = "golden-cross") =
      [⟨"buy", (klines.getD 210 dummyCandle).close,
        (klines.getD 210 dummyCandle).openTime, now, "golden-cross", "strong",
        none⟩] := by
  unfold maDetectSignals
  rw [if_neg (by omega), filter_flatMap, hlen]
  apply flatMap_eq_single _ _ _ 210
  · exact List.nodup_range' _ _
  · rw [List.mem_range'_1]; omega
  · rw [maEmit_filter_golden, if_pos]
    refine ⟨by omega, h1 209 (by rw [List.mem_range'_1]; omega),
      h2 210 (by rw [List.mem_range'_1]; omega)⟩
  · intro i hi hne
    rw [maEmit_filter_golden, if_neg]
    rintro ⟨hgt, hle, hlt⟩
    rw [List.mem_range'_1] at hi
    by_cases hlow : i ≤ 209
    · have hx := h1 i (by rw [List.mem_range'_1]; omega)
      unfold jsLe at hx
      unfold jsLt at hlt
      exact absurd hlt (not_lt.mpr hx)
    · have hx := h2 (i-1) (by rw [List.mem_range'_1]; omega)
      unfold jsLt at hx
      unfold jsLe at hle
      exact absurd hle (not_le.mpr hx)

/-- 250 synthetic candles: flat at 100 up to index 209, at 200 afterwards,
so SMA50 first exceeds SMA200 at index 210. -/
def klGolden : List Candle :=
  (List.range 250).map (fun i =>
    let p : ℚ := if i < 210 then 100 else 200
    ⟨1000 * (i : Int), p, p, p, p, 0⟩)

set_option maxRecDepth 100000 in
set_option maxHeartbeats 4000000 in
/-- Witness for C9 at the concrete golden-cross series. -/
theorem ma_golden_cross_exactly_once_witness :
    klGolden.length = 250 ∧
    (∀ i ∈ List.range' 201 9,
      jsLe ((calculateSMA (klGolden.map (·.close)) 50).getD i none)
           ((calculateSMA (klGolden.map (·.close)) 200).getD i none)) ∧
    (∀ i ∈ List.range' 210 40,
      jsLt ((calculateSMA (klGolden.map (·.close)) 200).getD i none)
           ((calculateSMA (klGolden.map (·.close)) 50).getD i none)) ∧
    (maDetectSignals 0 klGolden).filter (fun s => s.indicator = "golden-cross") =
      [⟨"buy", (klGolden.getD 210 dummyCandle).close,
        (klGolden.getD 210 dummyCandle).openTime, 0, "golden-cross", "strong",
        none⟩] := by
  have hlen : klGolden.length = 250 := by
    with_unfolding_all rfl
  have h1 : ∀ i ∈ List.range' 201 9,
      jsLe ((calculateSMA (klGolden.map (·.close)) 50).getD i none)
           ((calculateSMA (klGolden.map (·.close)) 200).getD i none) := by
    with_unfolding_all decide
  have h2 : ∀ i ∈ List.range' 210 40,
      jsLt ((calculateSMA (klGolden.map (·.close)) 200).getD i none)
           ((calculateSMA (klGolden.map (·.close)) 50).getD i none) := by
    with_unfolding_all decide
  exact ⟨hlen, h1, h2, ma_golden_cross_exactly_once klGolden 0 hlen h1 h2⟩

/-! ## Momentum (RSI) module (`rsi.js`) -/

/-- Wilder smoothing tail: `avg = (avg*(period-1) + new) / period`. -/
def wilderGo (period : Nat) : ℚ → List ℚ → List ℚ
  | _, [] => []
  | prev, x :: xs =>
    ((prev * ((period : ℚ) - 1) + x) / (period : ℚ)) ::
      wilderGo period ((prev * ((period : ℚ) - 1) + x) / (period : ℚ)) xs

/-- `calculateRSI` of `rsi.js` (close-based): arithmetic first average of
gains/losses over the first `period` changes, Wilder smoothing afterwards,
`rs = avgGain / (avgLoss == 0 ? 0.001 : avgLoss)`, `rsi = 100 - 100/(1+rs)`.
Only reached with `closes.length > period` (the detector guards at 50). -/
def calculateRSI (closes : List ℚ) (period : Nat) : List ℚ :=
  let changes := (closes.zip closes.tail).map (fun p => p.2 - p.1)
  let gains := changes.map (fun c => if 0 < c then c else 0)
  let losses := changes.map (fun c => if c < 0 then -c else 0)
  let firstGain := (gains.take period).sum / (period : ℚ)
  let firstLoss := (losses.take period).sum / (period : ℚ)
  let avgGain := firstGain :: wilderGo period firstGain (gains.drop period)
  let avgLoss := firstLoss :: wilderGo period firstLoss (losses.drop period)
  (avgGain.zip avgLoss).map (fun p =>
    100 - 100 / (1 + p.1 / (if p.2 = 0 then 1/1000 else p.2)))

/-- The zero-seed `calculateEMA` shared by `rsi.js` and `wavetrend.js`:
`ema[0] = prices[0]`, then `ema[i] = prices[i]*k + ema[i-1]*(1-k)` with
`k = 2/(period+1)`; no warm-up gap.  Only reached with nonempty input. -/
def calculateEMA (prices : List ℚ) (period : Nat) : List ℚ :=
  match prices with
  | [] => []
  | p :: rest => p :: emaGo (2 / ((period : ℚ) + 1)) p rest

/-- `checkDivergence`: compares the end of `prices` against `lookback`
candles earlier, but (as in the source) the end of the FULL `rsi` array
regardless of the price slice supplied. -/
def checkDivergence (prices rsi : List ℚ) (lookback : Nat) :
    Option (String × String) :=
  if prices.length < lookback + 1 ∨ rsi.length < lookback + 1 then none
  else
    let currentIndex := prices.length - 1
    let rsiLast := rsi.getD (rsi.length - 1) 0
    let rsiPrev := rsi.getD (rsi.length - 1 - lookback) 0
    if prices.getD currentIndex 0 < prices.getD (currentIndex - lookback) 0 ∧
        rsiPrev < rsiLast then
      some ("bullish", if rsiLast < 40 then "strong" else "medium")
    else if prices.getD (currentIndex - lookback) 0 < prices.getD currentIndex 0 ∧
        rsiLast < rsiPrev then
      some ("bearish", if 60 < rsiLast then "strong" else "medium")
    else none

/-- Per-index emission of the RSI detector's scan loop (indices from 30,
`rsiIndex = i - 15`; the `rsi7` series the source also computes is unused). -/
def rsiEmit (now : Int) (klines : List Candle) (i : Nat) : List Signal :=
  let closes := klines.map (·.close)
  let rsi14 := calculateRSI closes 14
  let rsi14Ema := calculateEMA rsi14 9
  let c := klines.getD i dummyCandle
  let timestamp := c.openTime
  let price := c.close
  let cur := rsi14.getD (i - 15) 0
  let prev := rsi14.getD (i - 16) 0
  let curEma := rsi14Ema.getD (i - 15) 0
  let prevEma := rsi14Ema.getD (i - 16) 0
  (if cur < 30 ∧ prev < 30 ∧ prev < cur then
    [⟨"buy", price, timestamp, now, "rsi-oversold",
      if cur < 20 then "strong" else "medium", none⟩] else []) ++
  (if 70 < cur ∧ 70 < prev ∧ cur < prev then
    [⟨"sell", price, timestamp, now, "rsi-overbought",
      if 80 < cur then "strong" else "medium", none⟩] else []) ++
  (if prev < prevEma ∧ curEma < cur ∧ cur < 50 then
    [⟨"buy", price, timestamp, now, "rsi-crossover", "medium", none⟩] else []) ++
  (if prevEma < prev ∧ cur < curEma ∧ 50 < cur then
    [⟨"sell", price, timestamp, now, "rsi-crossover", "medium", none⟩] else []) ++
  (match checkDivergence (closes.take (i + 1)) rsi14 5 with
   | some (typ, strength) =>
     [⟨if typ = "bullish" then "buy" else "sell", price, timestamp, now,
       "rsi-divergence", strength, none⟩]
   | none => [])

/-- `detectSignals` of `rsi.js`: guard at 50 candles, scan from index 30. -/
def rsiDetectSignals (now : Int) (klines : List Candle) : List Signal :=
  if klines.length < 50 then [] else
  (List.range' 30 (klines.length - 30)).flatMap (rsiEmit now klines)


/-- The candle series has strictly increasing open times (the data-model
ordering assumption). -/
def openTimesStrictMono (klines : List Candle) : Prop :=
  klines.Chain' (fun a b => a.openTime < b.openTime)

instance openTimesStrictMonoDec :
    (klines : List Candle) → Decidable (openTimesStrictMono klines)
  | [] => isTrue List.chain'_nil
  | [c] => isTrue (List.chain'_singleton c)
  | a :: b :: t =>
    haveI := openTimesStrictMonoDec (b :: t)
    decidable_of_iff (a.openTime < b.openTime ∧ openTimesStrictMono (b :: t))
      (by unfold openTimesStrictMono; rw [List.chain'_cons])

/-- The code's oversold-emission condition at scan index `i`:
both RSI(14) samples below 30 and rising. -/
def oversoldCond (klines : List Candle) (i : Nat) : Prop :=
  let rsi14 := calculateRSI (klines.map (·.close)) 14
  rsi14.getD (i - 15) 0 < 30 ∧ rsi14.getD (i - 16) 0 < 30 ∧
    rsi14.getD (i - 16) 0 < rsi14.getD (i - 15) 0

/-- The code's overbought-emission condition: both samples above 70 and
falling. -/
def overboughtCond (klines : List Candle) (i : Nat) : Prop :=
  let rsi14 := calculateRSI (klines.map (·.close)) 14
  70 < rsi14.getD (i - 15) 0 ∧ 70 < rsi14.getD (i - 16) 0 ∧
    rsi14.getD (i - 15) 0 < rsi14.getD (i - 16) 0

/-- The oversold signal the detector emits at scan index `i`. -/
def mkOversold (now : Int) (klines : List Candle) (i : Nat) : Signal :=
  ⟨"buy", (klines.getD i dummyCandle).close, (klines.getD i dummyCandle).openTime,
    now, "rsi-oversold",
    if (calculateRSI (klines.map (·.close)) 14).getD (i - 15) 0 < 20
      then "strong" else "medium", none⟩

/-- The overbought signal the detector emits at scan index `i`. -/
def mkOverbought (now : Int) (klines : List Candle) (i : Nat) : Signal :=
  ⟨"sell", (klines.getD i dummyCandle).close, (klines.getD i dummyCandle).openTime,
    now, "rsi-overbought",
    if 80 < (calculateRSI (klines.map (·.close)) 14).getD (i - 15) 0
      then "strong" else "medium", none⟩

theorem rsiEmit_timestamp (now : Int) (klines : List Candle) (j : Nat) :
    ∀ s ∈ rsiEmit now klines j, s.timestamp = (klines.getD j dummyCandle).openTime := by
  intro s hs
  unfold rsiEmit at hs
  simp only [List.mem_append] at hs
  rcases hs with ((((hs | hs) | hs) | hs) | hs) <;>
    (split at hs <;> simp_all)

theorem rsiEmit_oversold_eq (now : Int) (klines : List Candle) (j : Nat) :
    ∀ s ∈ rsiEmit now klines j, s.indicator = "rsi-oversold" →
      s = mkOversold now klines j ∧ oversoldCond klines j := by
  intro s hs hind
  unfold rsiEmit at hs
  simp only [List.mem_append] at hs
  rcases hs with ((((hs | hs) | hs) | hs) | hs)
  · split at hs
    next hcond =>
      simp only [List.mem_singleton] at hs
      subst hs
      exact ⟨rfl, hcond⟩
    next => simp at hs
  · split at hs
    next => simp only [List.mem_singleton] at hs; subst hs; simp at hind
    next => simp at hs
  · split at hs
    next => simp only [List.mem_singleton] at hs; subst hs; simp at hind
    next => simp at hs
  · split at hs
    next => simp only [List.mem_singleton] at hs; subst hs; simp at hind
    next => simp at hs
  · split at hs
    next => simp only [List.mem_singleton] at hs; subst hs; simp at hind
    next => simp at hs

theorem rsiEmit_oversold_of_cond (now : Int) (klines : List Candle) (j : Nat)
    (h : oversoldCond klines j) :
    mkOversold now klines j ∈ rsiEmit now klines j := by
  simp only [oversoldCond] at h
  unfold rsiEmit
  apply List.mem_append_left
  apply List.mem_append_left
  apply List.mem_append_left
  apply List.mem_append_left
  rw [if_pos h]
  exact List.mem_singleton.mpr rfl

theorem rsiEmit_overbought_eq (now : Int) (klines : List Candle) (j : Nat) :
    ∀ s ∈ rsiEmit now klines j, s.indicator = "rsi-overbought" →
      s = mkOverbought now klines j ∧ overboughtCond klines j := by
  intro s hs hind
  unfold rsiEmit at hs
  simp only [List.mem_append] at hs
  rcases hs with ((((hs | hs) | hs) | hs) | hs)
  · split at hs
    next => simp only [List.mem_singleton] at hs; subst hs; simp at hind
    next => simp at hs
  · split at hs
    next hcond =>
      simp only [List.mem_singleton] at hs
      subst hs
      exact ⟨rfl, hcond⟩
    next => simp at hs
  · split at hs
    next => simp only [List.mem_singleton] at hs; subst hs; simp at hind
    next => simp at hs
  · split at hs
    next => simp only [List.mem_singleton] at hs; subst hs; simp at hind
    next => simp at hs
  · split at hs
    next => simp only [List.mem_singleton] at hs; subst hs; simp at hind
    next => simp at hs

theorem rsiEmit_overbought_of_cond (now : Int) (klines : List Candle) (j : Nat)
    (h : overboughtCond klines j) :
    mkOverbought now klines j ∈ rsiEmit now klines j := by
  simp only [overboughtCond] at h
  unfold rsiEmit
  apply List.mem_append_left
  apply List.mem_append_left
  apply List.mem_append_left
  apply List.mem_append_right
  rw [if_pos h]
  exact List.mem_singleton.mpr rfl

theorem openTime_inj (klines : List Candle) (hmono : openTimesStrictMono klines)
    {i j : Nat} (hi : i < klines.length) (hj : j < klines.length)
    (h : (klines.getD i dummyCandle).openTime = (klines.getD j dummyCandle).openTime) :
    i = j := by
  have hc : klines.Chain' (fun a b => a.openTime < b.openTime) := hmono
  have hp : klines.Pairwise (fun a b => a.openTime < b.openTime) := by
    haveI : IsTrans Candle (fun a b => a.openTime < b.openTime) :=
      ⟨fun a b c hab hbc => lt_trans hab hbc⟩
    exact List.chain'_iff_pairwise.mp hc
  rw [List.getD_eq_getElem _ _ hi, List.getD_eq_getElem _ _ hj] at h
  rcases Nat.lt_trichotomy i j with hlt | heq | hgt
  · have := (List.pairwise_iff_getElem.mp hp) i j hi hj hlt
    omega
  · exact heq
  · have := (List.pairwise_iff_getElem.mp hp) j i hj hi hgt
    omega

theorem rsi_threshold_signals_iff (klines : List Candle) (now : Int)
    (hmono : openTimesStrictMono klines) (h50 : 50 ≤ klines.length)
    (i : Nat) (hi : 30 ≤ i) (hilen : i < klines.length) :
    (mkOversold now klines i ∈ rsiDetectSignals now klines ↔ oversoldCond klines i) ∧
    (mkOverbought now klines i ∈ rsiDetectSignals now klines ↔ overboughtCond klines i) := by
  constructor
  · constructor
    · intro hmem
      rw [rsiDetectSignals, if_neg (by omega), List.mem_flatMap] at hmem
      obtain ⟨j, hj, hmemj⟩ := hmem
      rw [List.mem_range'_1] at hj
      have hts : (klines.getD i dummyCandle).openTime =
          (klines.getD j dummyCandle).openTime :=
        rsiEmit_timestamp now klines j _ hmemj
      have hij : i = j := openTime_inj klines hmono hilen (by omega) hts
      subst hij
      exact (rsiEmit_oversold_eq now klines i _ hmemj rfl).2
    · intro hcond
      rw [rsiDetectSignals, if_neg (by omega), List.mem_flatMap]
      exact ⟨i, by rw [List.mem_range'_1]; omega,
        rsiEmit_oversold_of_cond now klines i hcond⟩
  · constructor
    · intro hmem
      rw [rsiDetectSignals, if_neg (by omega), List.mem_flatMap] at hmem
      obtain ⟨j, hj, hmemj⟩ := hmem
      rw [List.mem_range'_1] at hj
      have hts : (klines.getD i dummyCandle).openTime =
          (klines.getD j dummyCandle).openTime :=
        rsiEmit_timestamp now klines j _ hmemj
      have hij : i = j := openTime_inj klines hmono hilen (by omega) hts
      subst hij
      exact (rsiEmit_overbought_eq now klines i _ hmemj rfl).2
    · intro hcond
      rw [rsiDetectSignals, if_neg (by omega), List.mem_flatMap]
      exact ⟨i, by rw [List.mem_range'_1]; omega,
        rsiEmit_overbought_of_cond now klines i hcond⟩

/-- 50 synthetic candles: a steady decline to 56 followed by small rises,
keeping RSI(14) far below 30 while it rises. -/
def klRsi : List Candle :=
  (List.range 50).map (fun (i : Nat) =>
    let p : ℚ := if i < 45 then (100 : ℚ) - (i : ℚ) else 56 + ((i : ℚ) - 44) / 2
    { openTime := (i : Int), opn := p, high := p, low := p, close := p,
      volume := 0 })

set_option maxRecDepth 100000 in
set_option maxHeartbeats 1000000 in
/-- C6, counterexample to the upward-cross-through-30 reading: the detector
emits an `rsi-oversold` Buy at candle 46 although the current RSI(14) sample
(index 31) is still below 30 — no upward cross through 30 happened. -/
theorem rsi_oversold_cross_counterexample :
    (∃ s ∈ rsiDetectSignals 0 klRsi,
      s.indicator = "rsi-oversold" ∧ s.timestamp = 46) ∧
    (calculateRSI (klRsi.map (·.close)) 14).getD (46 - 15) 0 < 30 := by
  with_unfolding_all decide

set_option maxRecDepth 100000 in
set_option maxHeartbeats 1000000 in
/-- Witness for the amended C6 at candle index 46 of the concrete series. -/
theorem rsi_threshold_signals_iff_witness :
    (mkOversold 0 klRsi 46 ∈ rsiDetectSignals 0 klRsi ↔ oversoldCond klRsi 46) ∧
    (mkOverbought 0 klRsi 46 ∈ rsiDetectSignals 0 klRsi ↔
      overboughtCond klRsi 46) :=
  rsi_threshold_signals_iff klRsi 0 (by with_unfolding_all decide)
    (by with_unfolding_all decide) 46 (by with_unfolding_all decide)
    (by with_unfolding_all decide)

/-! Live-query utilities (`src/utils/signals.js`). -/

/-- `ema` of `src/utils/signals.js` (live-query): `[]` when shorter than
`period`, otherwise a sparse array — `undefined` (here `none`) below index
`period - 1`, the SMA of the first `period` values there, then the
recurrence.  (`period = 0` never occurs; callers use 20, 21 and 50.) -/
def ema (arr : List ℚ) (period : Nat) : List (Option ℚ) :=
  if arr.length < period ∨ period = 0 then [] else
  let k : ℚ := 2 / ((period : ℚ) + 1)
  let seed := (arr.take period).sum / (period : ℚ)
  (List.replicate (period - 1) (none : Option ℚ)) ++ [some seed] ++
    (emaGo k seed (arr.drop period)).map some

/-- Tail of the live `rsi`: state-passing over the remaining diffs. -/
def rsiGo (period : Nat) : ℚ → ℚ → List ℚ → List (Option ℚ)
  | _, _, [] => []
  | avgGain, avgLoss, d :: ds =>
    let ag := if 0 ≤ d then (avgGain * ((period : ℚ) - 1) + d) / (period : ℚ)
      else avgGain * ((period : ℚ) - 1) / (period : ℚ)
    let al := if 0 ≤ d then avgLoss * ((period : ℚ) - 1) / (period : ℚ)
      else (avgLoss * ((period : ℚ) - 1) - d) / (period : ℚ)
    (some (if al = 0 then 100 else 100 - 100 / (1 + ag / al))) ::
      rsiGo period ag al ds

/-- `rsi` of `src/utils/signals.js`: `[]` when shorter than `period + 1`,
`undefined` below index `period`, then smoothed RSI values. -/
def rsi (arr : List ℚ) (period : Nat) : List (Option ℚ) :=
  if arr.length < period + 1 ∨ period = 0 then [] else
  let diffs := (arr.zip arr.tail).map (fun p => p.2 - p.1)
  let g0 := ((diffs.take period).map (fun d => if 0 ≤ d then d else 0)).sum / (period : ℚ)
  let l0 := ((diffs.take period).map (fun d => if d < 0 then -d else 0)).sum / (period : ℚ)
  (List.replicate period (none : Option ℚ)) ++
    [some (if l0 = 0 then 100 else 100 - 100 / (1 + g0 / l0))] ++
    rsiGo period g0 l0 (diffs.drop period)

/-- `wavetrend` of `src/utils/signals.js`, over the sparse live `ema`.
`esa[i] || 0` and the `de[i] ? _ : 0` guard translate to `getD`/zero tests;
`wt2` entries that touch an `undefined` `wt1` slot are `NaN` in JS and
modelled as `none` (both compare false against everything). -/
def wavetrendLive (closes highs lows : List ℚ) (chlLen avgLen : Nat) :
    List (Option ℚ) × List (Option ℚ) :=
  if closes.length < max chlLen avgLen then ([], []) else
  let hlc3 := (List.range closes.length).map (fun i =>
    (highs.getD i 0 + lows.getD i 0 + closes.getD i 0) / 3)
  let esa := ema hlc3 chlLen
  let d := (List.range hlc3.length).map (fun i =>
    |hlc3.getD i 0 - (esa.getD i none).getD 0|)
  let de := ema d chlLen
  let ci := (List.range hlc3.length).map (fun i =>
    match de.getD i none with
    | some dv =>
      if dv = 0 then 0
      else (hlc3.getD i 0 - (esa.getD i none).getD 0) / ((15/1000) * dv)
    | none => 0)
  let wt1 := ema ci avgLen
  let wt2 := (List.range wt1.length).map (fun i =>
    if i < 2 then none else
    match wt1.getD i none, wt1.getD (i - 1) none, wt1.getD (i - 2) none with
    | some x, some y, some z => some ((x + y + z) / 3)
    | _, _, _ => none)
  (wt1, wt2)

/-- Backward scan `for (i = hi; i > lo; --i)`, returning the first hit. -/
def backScan {β : Type} (f : Nat → Option β) (lo : Nat) : Nat → Option β
  | 0 => none
  | i + 1 =>
    if i + 1 ≤ lo then none else
    match f (i + 1) with
    | some r => some r
    | none => backScan f lo i

/-- One step of the live wavetrend scan. -/
def wtScanStep (wt1 wt2 : List (Option ℚ)) (i : Nat) : Option String :=
  match wt1.getD (i - 1) none, wt2.getD (i - 1) none,
      wt1.getD i none, wt2.getD i none with
  | some a, some b, some c, some d =>
    if a < b ∧ d < c ∧ d ≤ -55 then some "Buy"
    else if b < a ∧ c < d ∧ 55 ≤ d then some "Sell"
    else none
  | _, _, _, _ => none

/-- Latest wavetrend crossover (signal, index). -/
def wtLatest (closes highs lows : List ℚ) : Option (String × Nat) :=
  let wt := wavetrendLive closes highs lows 13 21
  backScan (fun i => (wtScanStep wt.1 wt.2 i).map (fun s => (s, i))) 0
    (wt.1.length - 1)

/-- One step of the live RSI scan: Buy on an upward cross of 30, Sell on a
downward cross of 70. -/
def rsiScanStep (rsiArr : List (Option ℚ)) (i : Nat) : Option String :=
  match rsiArr.getD (i - 1) none, rsiArr.getD i none with
  | some p, some c =>
    if p < 30 ∧ 30 ≤ c then some "Buy"
    else if 70 < p ∧ c ≤ 70 then some "Sell"
    else none
  | _, _ => none

def rsiLatest (closes : List ℚ) : Option (String × Nat) :=
  let rsiArr := rsi closes 21
  backScan (fun i => (rsiScanStep rsiArr i).map (fun s => (s, i))) 0
    (rsiArr.length - 1)

/-- One step of the live price-vs-EMA21 scan. -/
def emaScanStep (closes : List ℚ) (ema21 : List (Option ℚ)) (i : Nat) :
    Option String :=
  match ema21.getD (i - 1) none, ema21.getD i none with
  | some e1, some e2 =>
    if closes.getD (i - 1) 0 ≤ e1 ∧ e2 < closes.getD i 0 then some "Buy"
    else if e1 ≤ closes.getD (i - 1) 0 ∧ closes.getD i 0 < e2 then some "Sell"
    else none
  | _, _ => none

def emaLatest (closes : List ℚ) : Option (String × Nat) :=
  let ema21 := ema closes 21
  backScan (fun i => (emaScanStep closes ema21 i).map (fun s => (s, i))) 0
    (closes.length - 1)

/-- One step of the live EMA20/EMA50 crossover scan. -/
def maScanStep (ema20 ema50 : List (Option ℚ)) (i : Nat) : Option String :=
  match ema20.getD (i - 1) none, ema50.getD (i - 1) none,
      ema20.getD i none, ema50.getD i none with
  | some a, some b, some c, some d =>
    if a ≤ b ∧ d < c then some "Buy"
    else if b ≤ a ∧ c < d then some "Sell"
    else none
  | _, _, _, _ => none

def maLatest (closes : List ℚ) : Option (String × Nat) :=
  let ema20 := ema closes 20
  let ema50 := ema closes 50
  backScan (fun i => (maScanStep ema20 ema50 i).map (fun s => (s, i))) 0
    (closes.length - 1)

/-- `Math.max(...)` over a list (only applied to nonempty lists). -/
def listMaxQ : List ℚ → ℚ
  | [] => 0
  | a :: t => t.foldl max a

def listMinQ : List ℚ → ℚ
  | [] => 0
  | a :: t => t.foldl min a

/-- Latest breakout over the 20-candle band `closes.slice(-20, -1)`; only
the last 4 candles are scanned. -/
def breakoutLatest (closes : List ℚ) : Option (String × Nat) :=
  if closes.length < 20 then none else
  let band := (closes.drop (closes.length - 20)).take 19
  let recentHigh := listMaxQ band
  let recentLow := listMinQ band
  backScan (fun i =>
    if recentHigh * (102/100) < closes.getD i 0 ∧
        closes.getD (i - 1) 0 ≤ recentHigh then some ("Buy", i)
    else if closes.getD i 0 < recentLow * (98/100) ∧
        recentLow ≤ closes.getD (i - 1) 0 then some ("Sell", i)
    else none) (closes.length - 5) (closes.length - 1)

/-- One entry of the live `getSignals` result. -/
structure LiveEntry where
  signal : Option String
  triggeredAt : Option Int
  pctChange : Option ℚ
  idx : Option Nat := none
  indicators : Option (List String) := none
  count : Option Nat := none
deriving Repr, DecidableEq

def nullEntry : LiveEntry := ⟨none, none, none, none, none, none⟩

/-- The full live `getSignals` record. -/
structure LiveSignals where
  wavetrend : LiveEntry
  rsi : LiveEntry
  ema : LiveEntry
  ma_crossover : LiveEntry
  breakout : LiveEntry
  wt_ema : LiveEntry
  rsi_ema : LiveEntry
  wt_rsi : LiveEntry
  cluster : LiveEntry
deriving Repr, DecidableEq

def allNullLiveSignals : LiveSignals :=
  ⟨nullEntry, nullEntry, nullEntry, nullEntry, nullEntry, nullEntry,
    nullEntry, nullEntry, nullEntry⟩

/-- Sign-adjusted percentage move from the trigger candle to the latest. -/
def pctFrom (closes : List ℚ) (idx : Nat) (sig : String) : Option ℚ :=
  if idx < closes.length then
    some (((closes.getD (closes.length - 1) 0 - closes.getD idx 0) /
      closes.getD idx 0) * 100 * (if sig = "Buy" then 1 else -1))
  else none

/-- Build a per-detector entry from a latest-hit. -/
def entryOf (klines : List Candle) (closes : List ℚ)
    (hit : Option (String × Nat)) : LiveEntry :=
  match hit with
  | some (sig, idx) =>
    { signal := some sig,
      triggeredAt := some (klines.getD idx dummyCandle).openTime,
      pctChange := pctFrom closes idx sig, idx := some idx }
  | none => { signal := none, triggeredAt := none, pctChange := none, idx := none }

/-- The five per-detector latest entries of `getSignals`, with their keys. -/
def liveFiveSignals (klines : List Candle) : List (String × LiveEntry) :=
  let closes := klines.map (·.close)
  let highs := klines.map (·.high)
  let lows := klines.map (·.low)
  [("wavetrend", entryOf klines closes (wtLatest closes highs lows)),
   ("rsi", entryOf klines closes (rsiLatest closes)),
   ("ema", entryOf klines closes (emaLatest closes)),
   ("ma_crossover", entryOf klines closes (maLatest closes)),
   ("breakout", entryOf klines closes (breakoutLatest closes))]

/-- Two-detector agreement entry (`wt_ema` / `rsi_ema`). -/
def comboOf (klines : List Candle) (closes : List ℚ) (e1 e2 : LiveEntry) :
    LiveEntry :=
  match e1.signal, e2.signal with
  | some s1, some s2 =>
    if s1 = s2 then
      let idx := max (e1.idx.getD 0) (e2.idx.getD 0)
      { signal := some s1,
        triggeredAt := some (klines.getD idx dummyCandle).openTime,
        pctChange := some (((closes.getD (closes.length - 1) 0 -
          closes.getD idx 0) / closes.getD idx 0) * 100 *
          (if s1 = "Buy" then 1 else -1)) }
    else nullEntry
  | _, _ => nullEntry

/-- `agreeWithin`-based `wt_rsi` entry. -/
def wtRsiOf (klines : List Candle) (closes : List ℚ) (e1 e2 : LiveEntry) :
    LiveEntry :=
  match e1.triggeredAt, e2.triggeredAt, e1.idx, e2.idx with
  | some _, some _, some i1, some i2 =>
    if max i1 i2 - min i1 i2 ≤ 3 then
      match e1.signal, e2.signal with
      | some s1, some s2 =>
        if s1 = s2 then
          let idx := max i1 i2
          { signal := some s1,
            triggeredAt := some (klines.getD idx dummyCandle).openTime,
            pctChange := some (((closes.getD (closes.length - 1) 0 -
              closes.getD idx 0) / closes.getD idx 0) * 100 *
              (if s1 = "Buy" then 1 else -1)) }
        else nullEntry
      | _, _ => nullEntry
    else nullEntry
  | _, _, _, _ => nullEntry

/-- The live cluster entry: at least 2 of the five agreeing, Buy checked
before Sell. -/
def liveCluster (klines : List Candle) (closes : List ℚ)
    (named : List (String × LiveEntry)) : LiveEntry :=
  let lastSignals := named.filter (fun p => p.2.signal.isSome ∧ p.2.idx.isSome)
  if 2 ≤ lastSignals.length then
    let buys := lastSignals.filter (fun p => p.2.signal = some "Buy")
    let sells := lastSignals.filter (fun p => p.2.signal = some "Sell")
    if 2 ≤ buys.length then
      let idx := (buys.map (fun p => p.2.idx.getD 0)).foldl max 0
      { signal := some "Buy",
        triggeredAt := some (klines.getD idx dummyCandle).openTime,
        pctChange := some (((closes.getD (closes.length - 1) 0 -
          closes.getD idx 0) / closes.getD idx 0) * 100),
        indicators := some (buys.map (fun p => p.1)),
        count := some buys.length }
    else if 2 ≤ sells.length then
      let idx := (sells.map (fun p => p.2.idx.getD 0)).foldl max 0
      { signal := some "Sell",
        triggeredAt := some (klines.getD idx dummyCandle).openTime,
        pctChange := some (((closes.getD (closes.length - 1) 0 -
          closes.getD idx 0) / closes.getD idx 0) * 100 * (-1)),
        indicators := some (sells.map (fun p => p.1)),
        count := some sells.length }
    else nullEntry
  else nullEntry

/-- `getSignals` of `src/utils/signals.js`: all-null below 30 candles,
otherwise the five detector entries plus the four composite entries. -/
def getSignals (klines : List Candle) : LiveSignals :=
  if klines.length < 30 then allNullLiveSignals else
  let closes := klines.map (·.close)
  let named := liveFiveSignals klines
  let wt := (named.getD 0 ("", nullEntry)).2
  let rsiE := (named.getD 1 ("", nullEntry)).2
  let emaE := (named.getD 2 ("", nullEntry)).2
  { wavetrend := wt, rsi := rsiE, ema := emaE,
    ma_crossover := (named.getD 3 ("", nullEntry)).2,
    breakout := (named.getD 4 ("", nullEntry)).2,
    wt_ema := comboOf klines closes wt emaE,
    rsi_ema := comboOf klines closes rsiE emaE,
    wt_rsi := wtRsiOf klines closes wt rsiE,
    cluster := liveCluster klines closes named }

/-! ### C10: live cluster Buy precedence -/

theorem live_cluster_buy_precedence (klines : List Candle)
    (hlen : 30 ≤ klines.length)
    (hbuy : 2 ≤ ((liveFiveSignals klines).filter
      (fun p => p.2.signal = some "Buy" ∧ p.2.idx.isSome)).length)
    (_hsell : 2 ≤ ((liveFiveSignals klines).filter
      (fun p => p.2.signal = some "Sell" ∧ p.2.idx.isSome)).length) :
    (getSignals klines).cluster.signal = some "Buy" := by
  have hbuys_eq :
      ((liveFiveSignals klines).filter
        (fun p => p.2.signal.isSome ∧ p.2.idx.isSome)).filter
          (fun p => p.2.signal = some "Buy")
      = (liveFiveSignals klines).filter
          (fun p => p.2.signal = some "Buy" ∧ p.2.idx.isSome) := by
    rw [List.filter_filter]
    apply List.filter_congr
    intro p _
    rcases hs : p.2.signal with _ | s <;> rcases hi : p.2.idx with _ | i <;>
      simp [hs, hi]
  have hlast : 2 ≤ ((liveFiveSignals klines).filter
      (fun p => p.2.signal.isSome ∧ p.2.idx.isSome)).length := by
    refine le_trans hbuy ?_
    rw [← hbuys_eq]
    exact List.length_filter_le _ _
  unfold getSignals
  rw [if_neg (by omega)]
  show (liveCluster klines (klines.map (·.close)) (liveFiveSignals klines)).signal
    = some "Buy"
  unfold liveCluster
  rw [if_pos hlast, hbuys_eq, if_pos hbuy]

/-- The concrete 30-candle series for the live-cluster witness: flat, then
an accelerating crash (driving wavetrend deeply negative), a sharp recovery
(wavetrend and RSI Buy), and a final plunge through the 20-candle band
(EMA and breakout Sell). -/
def klLive30 : List Candle :=
  (List.range 30).map (fun (i : Nat) =>
    let c : ℚ :=
      if i ≤ 17 then 1
      else if i = 18 then 0
      else if i = 19 then -2
      else if i = 20 then -6
      else if i = 21 then -14
      else if i = 22 then -30
      else if i = 23 then -60
      else if i = 24 then -110
      else if i = 25 then -170
      else if i = 26 then -60
      else if i = 27 then 0
      else if i = 28 then 30
      else -180
    { openTime := (i : Int), opn := c, high := c + 1/2, low := c - 1/2,
      close := c, volume := 0 })

set_option maxRecDepth 1000000 in
set_option maxHeartbeats 16000000 in
/-- Witness for C10: two Buy entries (wavetrend, rsi) and two Sell entries
(ema, breakout), and the cluster reports Buy. -/
theorem live_cluster_buy_precedence_witness :
    30 ≤ klLive30.length ∧
    2 ≤ ((liveFiveSignals klLive30).filter
      (fun p => p.2.signal = some "Buy" ∧ p.2.idx.isSome)).length ∧
    2 ≤ ((liveFiveSignals klLive30).filter
      (fun p => p.2.signal = some "Sell" ∧ p.2.idx.isSome)).length ∧
    (getSignals klLive30).cluster.signal = some "Buy" := by
  have h0 : 30 ≤ klLive30.length := by with_unfolding_all decide
  have h1 : 2 ≤ ((liveFiveSignals klLive30).filter
      (fun p => p.2.signal = some "Buy" ∧ p.2.idx.isSome)).length := by
    with_unfolding_all decide
  have h2 : 2 ≤ ((liveFiveSignals klLive30).filter
      (fun p => p.2.signal = some "Sell" ∧ p.2.idx.isSome)).length := by
    with_unfolding_all decide
  exact ⟨h0, h1, h2, live_cluster_buy_precedence klLive30 h0 h1 h2⟩

/-! ### C7: the two EMA warm-up conventions -/

theorem emaGo_length (k : ℚ) : ∀ (xs : List ℚ) (prev : ℚ),
    (emaGo k prev xs).length = xs.length := by
  intro xs
  induction xs with
  | nil => intro prev; rfl
  | cons x t ih => intro prev; simp [emaGo, ih]

/-- The recurrence satisfied by the EMA tail. -/
theorem emaGo_getD (k : ℚ) : ∀ (xs : List ℚ) (prev : ℚ) (j : Nat),
    j < xs.length →
    (emaGo k prev xs).getD j 0 =
      xs.getD j 0 * k +
        (if j = 0 then prev else (emaGo k prev xs).getD (j - 1) 0) * (1 - k) := by
  intro xs
  induction xs with
  | nil => intro prev j hj; simp at hj
  | cons x t ih =>
    intro prev j hj
    cases j with
    | zero => simp [emaGo]
    | succ j =>
      have hjt : j < t.length := by simpa using hj
      simp only [emaGo, List.getD_cons_succ]
      rw [ih _ j hjt]
      congr 1
      cases j with
      | zero => simp
      | succ j => simp [List.getD_cons_succ]

theorem calculateEMA_length (arr : List ℚ) (period : Nat) :
    (calculateEMA arr period).length = arr.length := by
  cases arr with
  | nil => rfl
  | cons a t => simp [calculateEMA, emaGo_length]

theorem calculateEMA_getD_zero (arr : List ℚ) (period : Nat) :
    (calculateEMA arr period).getD 0 0 = arr.getD 0 0 := by
  cases arr with
  | nil => rfl
  | cons a t => rfl

theorem calculateEMA_recurrence (arr : List ℚ) (period : Nat) :
    ∀ i, 1 ≤ i → i < arr.length →
      (calculateEMA arr period).getD i 0 =
        arr.getD i 0 * (2 / ((period : ℚ) + 1)) +
          (calculateEMA arr period).getD (i - 1) 0 *
            (1 - 2 / ((period : ℚ) + 1)) := by
  intro i hi hilen
  cases arr with
  | nil => simp at hilen
  | cons a t =>
    show (a :: emaGo (2 / ((period : ℚ) + 1)) a t).getD i 0 = _
    obtain ⟨j, rfl⟩ : ∃ j, i = j + 1 := ⟨i - 1, by omega⟩
    rw [List.getD_cons_succ]
    have hjt : j < t.length := by simp only [List.length_cons] at hilen; omega
    rw [emaGo_getD _ _ _ _ hjt]
    cases j with
    | zero => rfl
    | succ j =>
      rw [if_neg (Nat.succ_ne_zero j)]
      rfl

/-- C7 (amended): the live-query `ema` in `getSignals` is the SMA-seeded
sparse variant (undefined before index `period-1`, the SMA of the first
`period` values at `period-1`, then the standard recurrence), identical in
this regime to the MA-crossover module's `calculateEMA`; the zero-seed
variant — output 0 equal to `values[0]`, the recurrence from index 1 on, no
undefined warm-up — is the `calculateEMA` shared by the persisted wavetrend
and RSI modules. -/
theorem ema_variants (arr : List ℚ) (period : Nat) (hp : 1 ≤ period)
    (hlen : period ≤ arr.length) :
    (ema arr period).length = arr.length ∧
    (∀ i, i < period - 1 → (ema arr period).getD i none = none) ∧
    ((ema arr period).getD (period - 1) none =
      some ((arr.take period).sum / (period : ℚ))) ∧
    (∀ i, period ≤ i → i < arr.length →
      (ema arr period).getD i none =
        some (arr.getD i 0 * (2 / ((period : ℚ) + 1)) +
          ((ema arr period).getD (i - 1) none).getD 0 *
            (1 - 2 / ((period : ℚ) + 1)))) ∧
    (calculateEMA arr period).length = arr.length ∧
    (calculateEMA arr period).getD 0 0 = arr.getD 0 0 ∧
    (∀ i, 1 ≤ i → i < arr.length →
      (calculateEMA arr period).getD i 0 =
        arr.getD i 0 * (2 / ((period : ℚ) + 1)) +
          (calculateEMA arr period).getD (i - 1) 0 *
            (1 - 2 / ((period : ℚ) + 1))) ∧
    maCalculateEMA arr period = ema arr period := by
  have hnotlt : ¬ (arr.length < period ∨ period = 0) := by omega
  have hema : ema arr period =
      (List.replicate (period - 1) (none : Option ℚ)) ++
        [some ((arr.take period).sum / (period : ℚ))] ++
        (emaGo (2 / ((period : ℚ) + 1)) ((arr.take period).sum / (period : ℚ))
          (arr.drop period)).map some := by
    unfold ema
    rw [if_neg hnotlt]
  have hgoLen : (emaGo (2 / ((period : ℚ) + 1))
      ((arr.take period).sum / (period : ℚ)) (arr.drop period)).length
      = arr.length - period := by
    rw [emaGo_length, List.length_drop]
  obtain ⟨a, t, rfl⟩ : ∃ a t, arr = a :: t := by
    cases arr with
    | nil => simp at hlen; omega
    | cons a t => exact ⟨a, t, rfl⟩
  have hEmaAt : ∀ i, period ≤ i → i < (a :: t).length →
      (ema (a :: t) period).getD i none =
        some ((emaGo (2 / ((period : ℚ) + 1))
          (((a :: t).take period).sum / (period : ℚ))
          ((a :: t).drop period)).getD (i - period) 0) := by
    intro i hi hilen
    rw [hema, List.append_assoc,
      List.getD_append_right _ _ _ _ (by simp; omega)]
    have hidx : i - (List.replicate (period - 1) (none : Option ℚ)).length
        = (i - period) + 1 := by
      simp only [List.length_replicate]
      omega
    rw [hidx, List.singleton_append, List.getD_cons_succ]
    have hjlt : i - period < ((a :: t).drop period).length := by
      rw [List.length_drop]
      omega
    rw [List.getD_eq_getElem _ _ (by rw [List.length_map, emaGo_length]; exact hjlt)]
    rw [List.getElem_map]
    rw [List.getD_eq_getElem _ _ (by rw [emaGo_length]; exact hjlt)]
  refine ⟨?_, ?_, ?_, ?_, ?_, ?_, ?_, ?_⟩
  · rw [hema]
    simp [emaGo_length]
    simp only [List.length_cons] at hlen
    omega
  · intro i hi
    rw [hema, List.append_assoc, List.getD_append _ _ _ _ (by simp; omega)]
    simp [List.getD, List.getElem?_replicate, hi]
  · rw [hema, List.append_assoc,
      List.getD_append_right _ _ _ _ (by simp)]
    simp
  · intro i hi hilen
    rw [hEmaAt i hi hilen]
    have hjlt : i - period < ((a :: t).drop period).length := by
      rw [List.length_drop]
      simp only [List.length_cons] at hilen ⊢
      omega
    rw [emaGo_getD _ _ _ _ hjlt]
    have hilen' : i < (a :: t).length := hilen
    have harr : ((a :: t).drop period).getD (i - period) 0
        = (a :: t).getD i 0 := by
      rw [List.getD_eq_getElem _ _ hjlt, List.getD_eq_getElem _ _ hilen']
      have h2 : period + (i - period) = i := by omega
      rw [List.getElem_drop]
      simp only [h2]
    rw [harr]
    by_cases hip : i = period
    · rw [if_pos (by omega : i - period = 0)]
      have hprev : (ema (a :: t) period).getD (i - 1) none =
          some (((a :: t).take period).sum / (period : ℚ)) := by
        have hii : i - 1 = period - 1 := by omega
        rw [hii, hema, List.append_assoc,
          List.getD_append_right _ _ _ _ (by simp)]
        simp
      rw [hprev]
      rfl
    · rw [if_neg (by omega : ¬ i - period = 0),
        hEmaAt (i - 1) (by omega) (by omega)]
      have hidx2 : i - 1 - period = i - period - 1 := by omega
      rw [hidx2]
      simp
  · exact calculateEMA_length (a :: t) period
  · exact calculateEMA_getD_zero (a :: t) period
  · exact calculateEMA_recurrence (a :: t) period
  · unfold maCalculateEMA ema
    rw [if_neg (by omega), if_neg hnotlt]

/-- C7, counterexample to the variant assignment: the live-query `ema` of
`getSignals` (period 21 shown on 25 samples) is `undefined` at index 0 —
not `values[0]` — while the persisted wavetrend/RSI `calculateEMA` is the
variant with `output[0] = values[0]` and no warm-up gap. -/
theorem ema_variant_assignment_counterexample :
    ((ema ((List.range 25).map (fun n => (n : ℚ))) 21).getD 0 none = none) ∧
    ((ema ((List.range 25).map (fun n => (n : ℚ))) 21).getD 0 none ≠
      some (((List.range 25).map (fun n => (n : ℚ))).getD 0 0)) ∧
    calculateEMA [5, 7, 9] 2 = [5, 19/3, 73/9] := by
  with_unfolding_all decide

/-- Witness for the amended C7 at `arr = [5, 7, 9, 11]`, `period = 2`. -/
theorem ema_variants_witness :
    (ema [5, 7, 9, 11] 2).length = ([5, 7, 9, 11] : List ℚ).length ∧
    (∀ i, i < 2 - 1 → (ema [5, 7, 9, 11] 2).getD i none = none) ∧
    ((ema [5, 7, 9, 11] 2).getD (2 - 1) none =
      some ((([5, 7, 9, 11] : List ℚ).take 2).sum / (2 : ℚ))) ∧
    (∀ i, 2 ≤ i → i < ([5, 7, 9, 11] : List ℚ).length →
      (ema [5, 7, 9, 11] 2).getD i none =
        some (([5, 7, 9, 11] : List ℚ).getD i 0 * (2 / ((2 : ℚ) + 1)) +
          ((ema [5, 7, 9, 11] 2).getD (i - 1) none).getD 0 *
            (1 - 2 / ((2 : ℚ) + 1)))) ∧
    (calculateEMA [5, 7, 9, 11] 2).length = ([5, 7, 9, 11] : List ℚ).length ∧
    (calculateEMA [5, 7, 9, 11] 2).getD 0 0 = ([5, 7, 9, 11] : List ℚ).getD 0 0 ∧
    (∀ i, 1 ≤ i → i < ([5, 7, 9, 11] : List ℚ).length →
      (calculateEMA [5, 7, 9, 11] 2).getD i 0 =
        ([5, 7, 9, 11] : List ℚ).getD i 0 * (2 / ((2 : ℚ) + 1)) +
          (calculateEMA [5, 7, 9, 11] 2).getD (i - 1) 0 *
            (1 - 2 / ((2 : ℚ) + 1))) ∧
    maCalculateEMA [5, 7, 9, 11] 2 = ema [5, 7, 9, 11] 2 :=
  ema_variants [5, 7, 9, 11] 2 (by omega) (by with_unfolding_all decide)


/-! ## Persisted wavetrend module (`wavetrend.js`)

This module's arithmetic genuinely depends on IEEE special values:
`d[0] = 0` makes `ci[0] = 0/0 = NaN`, which the zero-seed EMA then
propagates through every `wt1`/`wt2` entry, so NaN must be modelled
explicitly.  `JsNum` is the IEEE-style value space over exact rationals
(signed zeros are collapsed; no operation reachable here distinguishes
them). -/

inductive JsNum : Type
  | nan : JsNum
  | inf : Bool → JsNum
  | fin : ℚ → JsNum
deriving Repr, DecidableEq

namespace JsNum

def neg : JsNum → JsNum
  | nan => nan
  | inf p => inf (!p)
  | fin q => fin (-q)

def add : JsNum → JsNum → JsNum
  | nan, _ => nan
  | _, nan => nan
  | inf p, inf q => if p = q then inf p else nan
  | inf p, fin _ => inf p
  | fin _, inf q => inf q
  | fin a, fin b => fin (a + b)

def sub (a b : JsNum) : JsNum := add a (neg b)

def mul : JsNum → JsNum → JsNum
  | nan, _ => nan
  | _, nan => nan
  | inf p, inf q => inf (p = q)
  | inf p, fin x => if x = 0 then nan else inf (p = (0 < x))
  | fin x, inf q => if x = 0 then nan else inf ((0 < x) = q)
  | fin a, fin b => fin (a * b)

def div : JsNum → JsNum → JsNum
  | nan, _ => nan
  | _, nan => nan
  | inf _, inf _ => nan
  | inf p, fin x => inf (p = (0 ≤ x))
  | fin _, inf _ => fin 0
  | fin a, fin b =>
    if b = 0 then (if a = 0 then nan else inf (0 < a)) else fin (a / b)

def abs : JsNum → JsNum
  | nan => nan
  | inf _ => inf true
  | fin q => fin |q|

/-- IEEE `<=`: false whenever NaN is involved. -/
def le : JsNum → JsNum → Prop
  | nan, _ => False
  | _, nan => False
  | inf p, inf q => p → q
  | inf p, fin _ => p = false
  | fin _, inf q => q = true
  | fin a, fin b => a ≤ b

/-- IEEE `<`: false whenever NaN is involved. -/
def lt : JsNum → JsNum → Prop
  | nan, _ => False
  | _, nan => False
  | inf p, inf q => p = false ∧ q = true
  | inf p, fin _ => p = false
  | fin _, inf q => q = true
  | fin a, fin b => a < b

instance : (a b : JsNum) → Decidable (le a b)
  | nan, nan => isFalse (fun h => h)
  | nan, inf _ => isFalse (fun h => h)
  | nan, fin _ => isFalse (fun h => h)
  | inf _, nan => isFalse (fun h => h)
  | fin _, nan => isFalse (fun h => h)
  | inf _, inf _ => inferInstanceAs (Decidable (_ → _))
  | inf _, fin _ => inferInstanceAs (Decidable (_ = _))
  | fin _, inf _ => inferInstanceAs (Decidable (_ = _))
  | fin _, fin _ => inferInstanceAs (Decidable (_ ≤ _))

instance : (a b : JsNum) → Decidable (lt a b)
  | nan, nan => isFalse (fun h => h)
  | nan, inf _ => isFalse (fun h => h)
  | nan, fin _ => isFalse (fun h => h)
  | inf _, nan => isFalse (fun h => h)
  | fin _, nan => isFalse (fun h => h)
  | inf _, inf _ => inferInstanceAs (Decidable (_ ∧ _))
  | inf _, fin _ => inferInstanceAs (Decidable (_ = _))
  | fin _, inf _ => inferInstanceAs (Decidable (_ = _))
  | fin _, fin _ => inferInstanceAs (Decidable (_ < _))

theorem mul_nan_right (a : JsNum) : mul a nan = nan := by
  cases a <;> rfl

theorem add_nan_right (a : JsNum) : add a nan = nan := by
  cases a <;> rfl

theorem not_le_of_nan_left (b : JsNum) : ¬ le nan b := by
  cases b <;> exact fun h => h

end JsNum

/-- The zero-seed EMA tail over `JsNum`. -/
def jsEmaGo (k : JsNum) : JsNum → List JsNum → List JsNum
  | _, [] => []
  | prev, x :: xs =>
    (JsNum.add (JsNum.mul x k) (JsNum.mul prev (JsNum.sub (JsNum.fin 1) k))) ::
      jsEmaGo k (JsNum.add (JsNum.mul x k) (JsNum.mul prev (JsNum.sub (JsNum.fin 1) k)))
        xs

/-- `calculateEMA` of `wavetrend.js` over `JsNum` values (zero-seed). -/
def jsCalculateEMA (prices : List JsNum) (period : Nat) : List JsNum :=
  match prices with
  | [] => []
  | p :: rest => p :: jsEmaGo (JsNum.fin (2 / ((period : ℚ) + 1))) p rest

/-- `hlc3` of a candle, an exact rational. -/
def hlc3 (c : Candle) : ℚ := (c.high + c.low + c.close) / 3

/-- `calculateWaveTrend` of `wavetrend.js`: `esa`, `d`, `ci`, `wt1`, `wt2`.
Out-of-range JS indexing yields `undefined`, whose arithmetic is NaN, hence
the `.nan` defaults (never reached on equal-length inputs). -/
def calculateWaveTrend (klines : List Candle) (channelLength avgLength : Nat) :
    List JsNum × List JsNum :=
  let h3 : List JsNum := klines.map (fun c => JsNum.fin (hlc3 c))
  let esa := jsCalculateEMA h3 channelLength
  let d := jsCalculateEMA
    ((List.range h3.length).map (fun i =>
      JsNum.abs (JsNum.sub (h3.getD i .nan) (esa.getD i .nan))))
    channelLength
  let ci := (List.range h3.length).map (fun i =>
    JsNum.div (JsNum.sub (h3.getD i .nan) (esa.getD i .nan))
      (JsNum.mul (JsNum.fin (15/1000)) (d.getD i .nan)))
  let wt1 := jsCalculateEMA ci avgLength
  let wt2 := (List.range wt1.length).map (fun i =>
    if i < 2 then wt1.getD i .nan
    else JsNum.div
      (JsNum.add (JsNum.add (wt1.getD i .nan) (wt1.getD (i - 1) .nan))
        (wt1.getD (i - 2) .nan))
      (JsNum.fin 3))
  (wt1, wt2)

/-- The wavetrend module's own `calculateRSI`, identical to the RSI
module's but fed with `hlc3` values (period 21 at the call site). -/
def wtCalculateRSI (klines : List Candle) (period : Nat) : List ℚ :=
  calculateRSI (klines.map hlc3) period

/-- Default signal for (never reached) out-of-range indexing. -/
def dummySignal : Signal := ⟨"", 0, 0, 0, "", "", none⟩

/-- The skip-ahead cluster scan of `wavetrend.js` (`i += 2` after a hit,
plus the loop's own `i++`): emits META-LESS cluster signals. -/
def wtClusterGo (now : Int) (typ : String) (sorted : List Signal)
    (window : Int) : Nat → List Signal
  | i =>
    if h : i + 2 < sorted.length then
      let s1 := sorted.getD i dummySignal
      let s3 := sorted.getD (i + 2) dummySignal
      if s3.timestamp - s1.timestamp ≤ window then
        ⟨typ, s3.price, s3.timestamp, now, "cluster", "strong", none⟩ ::
          wtClusterGo now typ sorted window (i + 3)
      else wtClusterGo now typ sorted window (i + 1)
    else []
termination_by i => sorted.length - i
decreasing_by all_goals omega

/-- `detectClusterSignals` of `wavetrend.js` (the metaless variant). -/
def wtDetectClusterSignals (now : Int) (signals : List Signal)
    (klines : List Candle) : List Signal :=
  if signals.length < 2 then [] else
  let buySignals := signals.filter (fun s => s.type = "buy")
  let sellSignals := signals.filter (fun s => s.type = "sell")
  let window := getCandlePeriodMs klines * 5
  (if 3 ≤ buySignals.length then
    wtClusterGo now "buy" (sortByTimestamp buySignals) window 0 else []) ++
  (if 3 ≤ sellSignals.length then
    wtClusterGo now "sell" (sortByTimestamp sellSignals) window 0 else [])

/-- Per-index emission of the wavetrend detector (`wtIndex = i - 3`,
`rsiIndex = i - 22`; the loop `continue`s while `rsiIndex < 0`). -/
def wtEmit (now : Int) (klines : List Candle) (i : Nat) : List Signal :=
  if i < 22 then [] else
  let wt := calculateWaveTrend klines 13 21
  let rsiArr := wtCalculateRSI klines 21
  let rsiEma := calculateEMA rsiArr 13
  let c := klines.getD i dummyCandle
  let timestamp := c.openTime
  let price := c.close
  let wtIndex := i - 3
  let rsiIndex := i - 22
  let isOversold := rsiArr.getD rsiIndex 0 < 30 ∧
    rsiArr.getD rsiIndex 0 < rsiEma.getD rsiIndex 0
  let isOverbought := 70 < rsiArr.getD rsiIndex 0 ∧
    rsiEma.getD rsiIndex 0 < rsiArr.getD rsiIndex 0
  (if JsNum.le (wt.1.getD (wtIndex - 1) .nan) (wt.2.getD (wtIndex - 1) .nan) ∧
      JsNum.lt (wt.2.getD wtIndex .nan) (wt.1.getD wtIndex .nan) then
    [⟨"buy", price, timestamp, now, "wavetrend-crossover", "medium", none⟩]
  else []) ++
  (if JsNum.le (wt.1.getD (wtIndex - 1) .nan) (wt.2.getD (wtIndex - 1) .nan) ∧
      JsNum.lt (wt.2.getD wtIndex .nan) (wt.1.getD wtIndex .nan) ∧
      JsNum.le (wt.2.getD wtIndex .nan) (JsNum.fin (-40)) then
    [⟨"buy", price, timestamp, now,
      if isOversold then "wavetrend+rsi" else "wavetrend",
      if isOversold then "strong" else "medium", none⟩]
  else []) ++
  (if JsNum.le (wt.2.getD (wtIndex - 1) .nan) (wt.1.getD (wtIndex - 1) .nan) ∧
      JsNum.lt (wt.1.getD wtIndex .nan) (wt.2.getD wtIndex .nan) then
    [⟨"sell", price, timestamp, now, "wavetrend-crossover", "medium", none⟩]
  else []) ++
  (if JsNum.le (wt.2.getD (wtIndex - 1) .nan) (wt.1.getD (wtIndex - 1) .nan) ∧
      JsNum.lt (wt.1.getD wtIndex .nan) (wt.2.getD wtIndex .nan) ∧
      JsNum.le (JsNum.fin 40) (wt.2.getD wtIndex .nan) then
    [⟨"sell", price, timestamp, now,
      if isOverbought then "wavetrend+rsi" else "wavetrend",
      if isOverbought then "strong" else "medium", none⟩]
  else [])

/-- `detectSignals` of `wavetrend.js`. -/
def wtDetectSignals (now : Int) (klines : List Candle) : List Signal :=
  if klines.length < 50 then [] else
  let signals := (List.range' 21 (klines.length - 21)).flatMap (wtEmit now klines)
  signals ++ wtDetectClusterSignals now signals klines

/-! ### The persisted wavetrend detector never fires -/

theorem mul_nan_left (b : JsNum) : JsNum.mul JsNum.nan b = JsNum.nan := by
  cases b <;> rfl

theorem jsEmaGo_nan (k : JsNum) :
    ∀ xs : List JsNum, jsEmaGo k JsNum.nan xs = List.replicate xs.length JsNum.nan := by
  intro xs
  induction xs with
  | nil => rfl
  | cons x t ih =>
    simp only [jsEmaGo, mul_nan_left, JsNum.add_nan_right, List.length_cons,
      List.replicate_succ, ih]

theorem getD_eq_of_all {α : Type} (l : List α) (d : α) (h : ∀ y ∈ l, y = d)
    (j : Nat) : l.getD j d = d := by
  rcases Nat.lt_or_ge j l.length with hj | hj
  · rw [List.getD_eq_getElem _ _ hj]
    exact h _ (List.getElem_mem hj)
  · rw [List.getD_eq_default]
    exact hj

theorem jsCalculateEMA_cons (p : JsNum) (rest : List JsNum) (period : Nat) :
    jsCalculateEMA (p :: rest) period =
      p :: jsEmaGo (JsNum.fin (2 / ((period : ℚ) + 1))) p rest := rfl

theorem sub_self_fin (q : ℚ) :
    JsNum.sub (JsNum.fin q) (JsNum.fin q) = JsNum.fin 0 := by
  simp [JsNum.sub, JsNum.neg, JsNum.add]

theorem mul_fin_zero (q : ℚ) :
    JsNum.mul (JsNum.fin q) (JsNum.fin 0) = JsNum.fin 0 := by
  simp [JsNum.mul]

theorem div_fin_zero_zero :
    JsNum.div (JsNum.fin 0) (JsNum.fin 0) = JsNum.nan := by
  simp [JsNum.div]

/-- Every `wt1` entry is NaN: `ci[0]` is `0/0` and the zero-seed EMA
propagates the NaN through the whole series. -/
theorem wt1_all_nan (klines : List Candle) :
    ∀ y ∈ (calculateWaveTrend klines 13 21).1, y = JsNum.nan := by
  cases klines with
  | nil => intro y hy; simp [calculateWaveTrend, jsCalculateEMA] at hy
  | cons c rest =>
    intro y hy
    simp only [calculateWaveTrend, List.map_cons, List.length_cons,
      List.length_map, List.range_succ_eq_map, List.map_map,
      jsCalculateEMA_cons, List.getD_cons_zero, sub_self_fin,
      JsNum.abs, abs_zero, mul_fin_zero, div_fin_zero_zero] at hy
    rw [jsEmaGo_nan] at hy
    rcases List.mem_cons.mp hy with rfl | hy
    · rfl
    · exact List.eq_of_mem_replicate hy

theorem wt1_getD_nan (klines : List Candle) (j : Nat) :
    (calculateWaveTrend klines 13 21).1.getD j JsNum.nan = JsNum.nan :=
  getD_eq_of_all _ _ (wt1_all_nan klines) j

theorem not_le_nan_right (a : JsNum) : ¬ JsNum.le a JsNum.nan := by
  cases a <;> exact fun h => h

theorem wtEmit_eq_nil (now : Int) (klines : List Candle) (i : Nat) :
    wtEmit now klines i = [] := by
  unfold wtEmit
  split
  · rfl
  · have hA : ∀ x, JsNum.le JsNum.nan x = False :=
      fun x => eq_false (JsNum.not_le_of_nan_left x)
    have hB : ∀ x, JsNum.le x JsNum.nan = False :=
      fun x => eq_false (not_le_nan_right x)
    simp only [wt1_getD_nan, hA, hB, false_and, if_false, List.append_nil]

/-- The persisted-mode wavetrend detector emits nothing, for every input:
`ci[0] = 0/0 = NaN` poisons `wt1`/`wt2`, and NaN comparisons are all false.
(Its cluster pass then sees an empty list.) -/
theorem wtDetectSignals_eq_nil (now : Int) (klines : List Candle) :
    wtDetectSignals now klines = [] := by
  unfold wtDetectSignals
  split
  · rfl
  · have hflat : (List.range' 21 (klines.length - 21)).flatMap (wtEmit now klines)
        = [] := by
      rw [List.flatMap_eq_nil_iff]
      intro i _
      exact wtEmit_eq_nil now klines i
    rw [hflat]
    rfl

/-! ## `detectAllSignals` (`server/signals/index.js`) -/

def detectAllSignals (now : Int) (klines : List Candle) : List Signal :=
  if klines.length < 50 then [] else
  let allSignals := wtDetectSignals now klines ++ rsiDetectSignals now klines ++
    maDetectSignals now klines ++ breakoutDetectSignals now klines
  allSignals ++ detectClusterSignals now allSignals klines

/-! ### C3: short inputs yield empty/null results, never errors -/

/-- C3: every detector is a total function (nothing throws), and below its
stated minimum length it returns `[]` (persisted mode: 50 for wavetrend,
RSI, breakout and the aggregate; 100 for MA-crossover) or the all-null
record (live mode, 30). -/
theorem short_series_detectors (klines : List Candle) (now : Int) :
    (klines.length < 50 →
      detectAllSignals now klines = [] ∧ wtDetectSignals now klines = [] ∧
      rsiDetectSignals now klines = [] ∧ breakoutDetectSignals now klines = []) ∧
    (klines.length < 100 → maDetectSignals now klines = []) ∧
    (klines.length < 30 → getSignals klines = allNullLiveSignals) := by
  refine ⟨fun h => ⟨?_, wtDetectSignals_eq_nil now klines, ?_, ?_⟩,
    fun h => ?_, fun h => ?_⟩
  · simp only [detectAllSignals]; rw [if_pos h]
  · simp only [rsiDetectSignals]; rw [if_pos h]
  · simp only [breakoutDetectSignals]; rw [if_pos h]
  · simp only [maDetectSignals]; rw [if_pos h]
  · simp only [getSignals]; rw [if_pos h]

/-- Witness for C3 on a 10-candle series. -/
theorem short_series_detectors_witness :
    (detectAllSignals 0 kl10 = [] ∧ wtDetectSignals 0 kl10 = [] ∧
      rsiDetectSignals 0 kl10 = [] ∧ breakoutDetectSignals 0 kl10 = []) ∧
    maDetectSignals 0 kl10 = [] ∧
    getSignals kl10 = allNullLiveSignals := by
  have h10 : kl10.length = 10 := by with_unfolding_all rfl
  obtain ⟨h1, h2, h3⟩ := short_series_detectors kl10 0
  exact ⟨h1 (by omega), h2 (by omega), h3 (by omega)⟩

/-! ### Per-detector well-formedness (no meta, no cluster tag, candle
timestamps) -/

theorem openTime_getD_mem (klines : List Candle) (j : Nat)
    (h : j < klines.length) :
    (klines.getD j dummyCandle).openTime ∈ klines.map (·.openTime) := by
  rw [List.getD_eq_getElem _ _ h]
  exact List.mem_map_of_mem _ (List.getElem_mem h)

theorem rsiEmit_base (now : Int) (klines : List Candle) (j : Nat) :
    ∀ s ∈ rsiEmit now klines j,
      s.meta = none ∧ s.indicator ≠ "cluster" ∧
        s.timestamp = (klines.getD j dummyCandle).openTime := by
  intro s hs
  unfold rsiEmit at hs
  simp only [List.mem_append] at hs
  rcases hs with ((((hs | hs) | hs) | hs) | hs) <;> (split at hs <;> simp_all)

theorem rsiDetectSignals_base (now : Int) (klines : List Candle) :
    ∀ s ∈ rsiDetectSignals now klines,
      s.meta = none ∧ s.indicator ≠ "cluster" ∧
        s.timestamp ∈ klines.map (·.openTime) := by
  intro s hs
  unfold rsiDetectSignals at hs
  split at hs
  · simp at hs
  · rw [List.mem_flatMap] at hs
    obtain ⟨j, hj, hmem⟩ := hs
    obtain ⟨h1, h2, h3⟩ := rsiEmit_base now klines j s hmem
    refine ⟨h1, h2, ?_⟩
    rw [h3]
    rw [List.mem_range'_1] at hj
    exact openTime_getD_mem klines j (by omega)

theorem maEmit_base (now : Int) (klines : List Candle) (j : Nat) :
    ∀ s ∈ maEmit now klines j,
      s.meta = none ∧ s.indicator ≠ "cluster" ∧
        s.timestamp = (klines.getD j dummyCandle).openTime := by
  intro s hs
  unfold maEmit at hs
  simp only [List.mem_append] at hs
  rcases hs with (((((hs | hs) | hs) | hs) | hs) | hs) <;>
    (split at hs <;> simp_all)

theorem maDetectSignals_base (now : Int) (klines : List Candle) :
    ∀ s ∈ maDetectSignals now klines,
      s.meta = none ∧ s.indicator ≠ "cluster" ∧
        s.timestamp ∈ klines.map (·.openTime) := by
  intro s hs
  unfold maDetectSignals at hs
  split at hs
  · simp at hs
  · rw [List.mem_flatMap] at hs
    obtain ⟨j, hj, hmem⟩ := hs
    obtain ⟨h1, h2, h3⟩ := maEmit_base now klines j s hmem
    refine ⟨h1, h2, ?_⟩
    rw [h3]
    rw [List.mem_range'_1] at hj
    exact openTime_getD_mem klines j (by omega)

theorem breakoutDetectSignals_base (now : Int) (klines : List Candle) :
    ∀ s ∈ breakoutDetectSignals now klines,
      s.meta = none ∧ s.indicator ≠ "cluster" ∧
        s.timestamp ∈ klines.map (·.openTime) := by
  intro s hs
  unfold breakoutDetectSignals at hs
  split at hs
  · simp at hs
  · next hlen =>
    rw [List.mem_flatMap] at hs
    obtain ⟨j, hj, hmem⟩ := hs
    rw [List.mem_flatMap] at hmem
    obtain ⟨zone, _, hmem⟩ := hmem
    rw [List.mem_range'_1] at hj
    have hts : s.timestamp =
        ((klines.drop (klines.length - 10)).getD j dummyCandle).openTime ∧
        s.meta = none ∧ s.indicator ≠ "cluster" := by
      simp only [List.mem_append] at hmem
      rcases hmem with hmem | hmem <;> (split at hmem <;> simp_all)
    have hdl : (klines.drop (klines.length - 10)).length = 10 := by
      rw [List.length_drop]; omega
    have hjlen : j < (klines.drop (klines.length - 10)).length := by
      rw [hdl] at hj ⊢; omega
    have hdrop : ((klines.drop (klines.length - 10)).getD j dummyCandle)
        = klines.getD (klines.length - 10 + j) dummyCandle := by
      rw [List.getD_eq_getElem _ _ hjlen,
        List.getD_eq_getElem _ _ (by rw [List.length_drop] at hjlen; omega)]
      exact List.getElem_drop _
    refine ⟨hts.2.1, hts.2.2, ?_⟩
    rw [hts.1, hdrop]
    exact openTime_getD_mem klines _ (by rw [List.length_drop] at hjlen; omega)

/-! ### Cluster-stage structure lemmas -/

theorem uniqueFirst_subset (l : List String) : ∀ x ∈ uniqueFirst l, x ∈ l := by
  induction l using uniqueFirst.induct with
  | case1 => simp [uniqueFirst]
  | case2 a t ih =>
    intro x hx
    rw [uniqueFirst] at hx
    rcases List.mem_cons.mp hx with h | h
    · exact h ▸ List.mem_cons_self a t
    · exact List.mem_cons_of_mem a (List.mem_of_mem_filter (ih x h))

theorem uniqueFirst_length_le (l : List String) :
    (uniqueFirst l).length ≤ l.length := by
  induction l using uniqueFirst.induct with
  | case1 => simp [uniqueFirst]
  | case2 a t ih =>
    rw [uniqueFirst]
    simp only [List.length_cons]
    exact Nat.succ_le_succ (le_trans ih (List.length_filter_le _ _))

theorem mem_insertByTs (x s : Signal) (l : List Signal) :
    x ∈ insertByTs s l ↔ x = s ∨ x ∈ l := by
  induction l with
  | nil => simp [insertByTs]
  | cons a t ih =>
    simp only [insertByTs]
    split
    · simp [List.mem_cons]
    · simp only [List.mem_cons, ih]
      tauto

theorem mem_sortByTimestamp (x : Signal) (l : List Signal) :
    x ∈ sortByTimestamp l ↔ x ∈ l := by
  unfold sortByTimestamp
  induction l with
  | nil => simp
  | cons a t ih =>
    simp only [List.foldr_cons, mem_insertByTs, ih, List.mem_cons]

theorem mem_of_getLast?_eq : ∀ (l : List Signal) (a : Signal),
    l.getLast? = some a → a ∈ l := by
  intro l
  induction l with
  | nil => intro a h; simp at h
  | cons b t ih =>
    intro a h
    cases t with
    | nil => simp_all
    | cons c u =>
      rw [List.getLast?_cons_cons] at h
      exact List.mem_cons_of_mem b (ih a h)

theorem mkClusterSignals_spec (now : Int) (typ : String)
    (groups : List (List Signal)) (base : List Signal)
    (hsub : ∀ g ∈ groups, ∀ x ∈ g, x ∈ base) :
    ∀ s ∈ mkClusterSignals now typ groups,
      s.indicator = "cluster" ∧
      (∃ t ∈ base, s.timestamp = t.timestamp) ∧
      ∃ m, s.meta = some m ∧ m.indicators.length ≤ m.count ∧
        ∀ tag ∈ m.indicators, ∃ t ∈ base, t.indicator = tag := by
  intro s hs
  unfold mkClusterSignals at hs
  rw [List.mem_flatMap] at hs
  obtain ⟨g, hg, hmem⟩ := hs
  split at hmem
  · cases hlast : g.getLast? with
    | none => rw [hlast] at hmem; simp at hmem
    | some latest =>
      rw [hlast] at hmem
      simp only [List.mem_singleton] at hmem
      subst hmem
      refine ⟨rfl, ⟨latest, hsub g hg latest (mem_of_getLast?_eq g latest hlast), rfl⟩,
        ⟨g.length, uniqueFirst (g.map (·.indicator))⟩, rfl, ?_, ?_⟩
      · calc (uniqueFirst (g.map (·.indicator))).length
            ≤ (g.map (·.indicator)).length := uniqueFirst_length_le _
          _ = g.length := List.length_map _ _
      · intro tag htag
        have : tag ∈ g.map (·.indicator) := uniqueFirst_subset _ tag htag
        obtain ⟨x, hx, hxe⟩ := List.mem_map.mp this
        exact ⟨x, hsub g hg x hx, hxe⟩
  · simp at hmem

theorem detectClusterSignals_spec (now : Int) (signals : List Signal)
    (klines : List Candle) :
    ∀ s ∈ detectClusterSignals now signals klines,
      s.indicator = "cluster" ∧
      (∃ t ∈ signals, s.timestamp = t.timestamp) ∧
      ∃ m, s.meta = some m ∧ m.indicators.length ≤ m.count ∧
        ∀ tag ∈ m.indicators, ∃ t ∈ signals, t.indicator = tag := by
  intro s hs
  have hsub : ∀ (p : Signal → Bool) (g : List Signal),
      g ∈ groupSignalsByTime (sortByTimestamp (signals.filter p))
        (getCandlePeriodMs klines * 5) → ∀ x ∈ g, x ∈ signals := by
    intro p g hg x hx
    have hfl : x ∈ (groupSignalsByTime (sortByTimestamp (signals.filter p))
        (getCandlePeriodMs klines * 5)).flatten := List.mem_flatten.mpr ⟨g, hg, hx⟩
    simp only [groupSignalsByTime] at hfl
    rw [greedyGroup_join] at hfl
    exact List.mem_of_mem_filter ((mem_sortByTimestamp x _).mp hfl)
  simp only [detectClusterSignals] at hs
  split at hs
  · simp at hs
  · rw [List.mem_append] at hs
    rcases hs with hs | hs <;> split at hs
    · exact mkClusterSignals_spec now "buy" _ signals (hsub _) s hs
    · simp at hs
    · exact mkClusterSignals_spec now "sell" _ signals (hsub _) s hs
    · simp at hs

/-! ### C2: every signal timestamp is a candle openTime -/

/-- C2: every Signal returned by `detectAllSignals` — cluster signals
included — carries a `timestamp` equal to the `openTime` of some candle of
the input series. -/
theorem signal_timestamps_from_candles (klines : List Candle) (now : Int) :
    ∀ s ∈ detectAllSignals now klines,
      s.timestamp ∈ klines.map (·.openTime) := by
  intro s hs
  simp only [detectAllSignals] at hs
  split at hs
  · simp at hs
  · have hbase : ∀ t ∈ wtDetectSignals now klines ++ rsiDetectSignals now klines ++
        maDetectSignals now klines ++ breakoutDetectSignals now klines,
        t.timestamp ∈ klines.map (·.openTime) := by
      intro t ht
      simp only [List.mem_append] at ht
      rcases ht with ((ht | ht) | ht) | ht
      · rw [wtDetectSignals_eq_nil] at ht; simp at ht
      · exact (rsiDetectSignals_base now klines t ht).2.2
      · exact (maDetectSignals_base now klines t ht).2.2
      · exact (breakoutDetectSignals_base now klines t ht).2.2
    rw [List.mem_append] at hs
    rcases hs with hs | hs
    · exact hbase s hs
    · obtain ⟨_, ⟨t, ht, hts⟩, _⟩ := detectClusterSignals_spec now _ klines s hs
      rw [hts]
      exact hbase t ht

set_option maxRecDepth 100000 in
set_option maxHeartbeats 4000000 in
/-- Witness for C2: the `rsi-oversold` Buy that `detectAllSignals` emits at
candle 46 of `klRsi` is timestamped with that candle's openTime. -/
theorem signal_timestamps_from_candles_witness :
    (mkOversold 0 klRsi 46).timestamp ∈ klRsi.map (·.openTime) :=
  signal_timestamps_from_candles klRsi 0 (mkOversold 0 klRsi 46)
    (by with_unfolding_all decide)

/-! ### C1: cluster meta is derived from the non-cluster signals -/

/-- C1: on a series of 50 or more candles, every signal of
`detectAllSignals` bearing a `meta` payload is a cluster signal whose
`meta.indicators` list is a subset of the indicator tags of the non-cluster
signals of the same call, with `meta.count` at least its cardinality. -/
theorem cluster_meta_subset_and_count (klines : List Candle) (now : Int)
    (s : Signal) (m : ClusterMeta) (h50 : 50 ≤ klines.length)
    (hs : s ∈ detectAllSignals now klines) (hm : s.meta = some m) :
    m.indicators ⊆ ((detectAllSignals now klines).filter
      (fun t => t.indicator ≠ "cluster")).map (·.indicator) ∧
    m.indicators.length ≤ m.count := by
  have hguard : ¬ klines.length < 50 := by omega
  simp only [detectAllSignals] at hs ⊢
  rw [if_neg hguard] at hs ⊢
  have hnc : ∀ t ∈ wtDetectSignals now klines ++ rsiDetectSignals now klines ++
      maDetectSignals now klines ++ breakoutDetectSignals now klines,
      t.meta = none ∧ t.indicator ≠ "cluster" := by
    intro t ht
    simp only [List.mem_append] at ht
    rcases ht with ((ht | ht) | ht) | ht
    · rw [wtDetectSignals_eq_nil] at ht; simp at ht
    · exact ⟨(rsiDetectSignals_base now klines t ht).1,
        (rsiDetectSignals_base now klines t ht).2.1⟩
    · exact ⟨(maDetectSignals_base now klines t ht).1,
        (maDetectSignals_base now klines t ht).2.1⟩
    · exact ⟨(breakoutDetectSignals_base now klines t ht).1,
        (breakoutDetectSignals_base now klines t ht).2.1⟩
  rcases List.mem_append.mp hs with hsA | hsC
  · exact absurd hm (by rw [(hnc s hsA).1]; exact fun h => Option.noConfusion h)
  · obtain ⟨_, _, m', hm', hlen, htags⟩ :=
      detectClusterSignals_spec now _ klines s hsC
    rw [hm] at hm'
    injection hm' with hmm
    subst hmm
    refine ⟨?_, hlen⟩
    intro tag htag
    obtain ⟨t, ht, hind⟩ := htags tag htag
    rw [List.mem_map]
    exact ⟨t, List.mem_filter.mpr ⟨List.mem_append_left _ ht,
      decide_eq_true (hnc t ht).2⟩, hind⟩

set_option maxRecDepth 100000 in
set_option maxHeartbeats 4000000 in
/-- Witness for C1: the cluster signal emitted on `klRsi` carries
`meta = { count := 22, indicators := [rsi-divergence, rsi-oversold] }`,
whose tags all occur among the call's non-cluster signals. -/
theorem cluster_meta_subset_and_count_witness :
    (ClusterMeta.mk 22 ["rsi-divergence", "rsi-oversold"]).indicators ⊆
      ((detectAllSignals 0 klRsi).filter
        (fun t => t.indicator ≠ "cluster")).map (·.indicator) ∧
    (ClusterMeta.mk 22 ["rsi-divergence", "rsi-oversold"]).indicators.length ≤
      (ClusterMeta.mk 22 ["rsi-divergence", "rsi-oversold"]).count :=
  cluster_meta_subset_and_count klRsi 0
    { type := "buy", price := 117/2, timestamp := 49, created_at := 0,
      indicator := "cluster", strength := "strong",
      meta := some (ClusterMeta.mk 22 ["rsi-divergence", "rsi-oversold"]) }
    (ClusterMeta.mk 22 ["rsi-divergence", "rsi-oversold"])
    (by with_unfolding_all decide)
    (by with_unfolding_all decide)
    rfl

/-! ### C4: `created_at` is the only run-dependent field -/

/-- Re-stamping a signal's `created_at` (the only place `Date.now()` enters
the aggregator). -/
def stamp (n : Int) (s : Signal) : Signal := { s with created_at := n }

def sigView (s : Signal) :
    String × ℚ × Int × String × String × Option ClusterMeta :=
  (s.type, s.price, s.timestamp, s.indicator, s.strength, s.meta)

theorem map_flatMap_comm {α β γ : Type} (g : β → γ) (f : α → List β)
    (l : List α) : (l.flatMap f).map g = l.flatMap (fun a => (f a).map g) := by
  induction l with
  | nil => rfl
  | cons a t ih => simp [List.flatMap_cons, ih]

theorem flatMap_congr {α β : Type} {f g : α → List β} :
    ∀ l : List α, (∀ a ∈ l, f a = g a) → l.flatMap f = l.flatMap g := by
  intro l
  induction l with
  | nil => intro _; rfl
  | cons a t ih =>
    intro h
    rw [List.flatMap_cons, List.flatMap_cons, h a (List.mem_cons_self a t),
      ih (fun x hx => h x (List.mem_cons_of_mem a hx))]

theorem rsiEmit_stamp (now : Int) (klines : List Candle) (i : Nat) :
    rsiEmit now klines i = (rsiEmit 0 klines i).map (stamp now) := by
  simp only [rsiEmit, List.map_append, apply_ite (List.map (stamp now)),
    List.map_cons, List.map_nil, stamp]
  congr 1
  split <;> simp [stamp]

theorem maEmit_stamp (now : Int) (klines : List Candle) (i : Nat) :
    maEmit now klines i = (maEmit 0 klines i).map (stamp now) := by
  simp only [maEmit, List.map_append, apply_ite (List.map (stamp now)),
    List.map_cons, List.map_nil, stamp]

theorem rsiDetectSignals_stamp (now : Int) (klines : List Candle) :
    rsiDetectSignals now klines = (rsiDetectSignals 0 klines).map (stamp now) := by
  by_cases h : klines.length < 50
  · simp [rsiDetectSignals, h]
  · simp only [rsiDetectSignals, if_neg h]
    rw [map_flatMap_comm]
    exact flatMap_congr _ (fun j _ => rsiEmit_stamp now klines j)

theorem maDetectSignals_stamp (now : Int) (klines : List Candle) :
    maDetectSignals now klines = (maDetectSignals 0 klines).map (stamp now) := by
  by_cases h : klines.length < 100
  · simp [maDetectSignals, h]
  · simp only [maDetectSignals, if_neg h]
    rw [map_flatMap_comm]
    exact flatMap_congr _ (fun j _ => maEmit_stamp now klines j)

theorem breakoutDetectSignals_stamp (now : Int) (klines : List Candle) :
    breakoutDetectSignals now klines =
      (breakoutDetectSignals 0 klines).map (stamp now) := by
  by_cases h : klines.length < 50
  · simp [breakoutDetectSignals, h]
  · simp only [breakoutDetectSignals, if_neg h]
    rw [map_flatMap_comm]
    refine flatMap_congr _ (fun i _ => ?_)
    rw [map_flatMap_comm]
    refine flatMap_congr _ (fun zone _ => ?_)
    simp only [List.map_append, apply_ite (List.map (stamp now)),
      List.map_cons, List.map_nil, stamp]

theorem insertByTs_stamp (n : Int) (s : Signal) (l : List Signal) :
    insertByTs (stamp n s) (l.map (stamp n)) = (insertByTs s l).map (stamp n) := by
  induction l with
  | nil => rfl
  | cons a t ih =>
    simp only [List.map_cons, insertByTs]
    have hst : (stamp n s).timestamp = s.timestamp := rfl
    have hat : (stamp n a).timestamp = a.timestamp := rfl
    rw [hst, hat]
    split <;> simp [ih]

theorem sortByTimestamp_stamp (n : Int) (l : List Signal) :
    sortByTimestamp (l.map (stamp n)) = (sortByTimestamp l).map (stamp n) := by
  unfold sortByTimestamp
  induction l with
  | nil => rfl
  | cons a t ih => simp only [List.map_cons, List.foldr_cons, ih, insertByTs_stamp]

theorem greedyGroupAux_map {α β : Type} (f : α → β) (joins : β → β → Prop)
    (joins0 : α → α → Prop) [DecidableRel joins] [DecidableRel joins0]
    (hf : ∀ a b, joins (f a) (f b) ↔ joins0 a b) :
    ∀ (rest : List α) (lastA : α) (cur : List α),
      greedyGroupAux joins (f lastA) (cur.map f) (rest.map f) =
        (greedyGroupAux joins0 lastA cur rest).map (List.map f) := by
  intro rest
  induction rest with
  | nil => intro lastA cur; simp [greedyGroupAux]
  | cons a t ih =>
    intro lastA cur
    simp only [List.map_cons, greedyGroupAux]
    by_cases h : joins0 lastA a
    · rw [if_pos ((hf lastA a).mpr h), if_pos h]
      have : cur.map f ++ [f a] = (cur ++ [a]).map f := by simp
      rw [this]
      exact ih a (cur ++ [a])
    · rw [if_neg (fun hh => h ((hf lastA a).mp hh)), if_neg h, List.map_cons]
      have : [f a] = [a].map f := rfl
      rw [this]
      rw [ih a [a]]

theorem groupSignalsByTime_stamp (n : Int) (l : List Signal) (w : Int) :
    groupSignalsByTime (l.map (stamp n)) w =
      (groupSignalsByTime l w).map (List.map (stamp n)) := by
  unfold groupSignalsByTime
  cases l with
  | nil => rfl
  | cons a t =>
    simp only [List.map_cons, greedyGroup]
    have : [stamp n a] = [a].map (stamp n) := rfl
    rw [this]
    exact greedyGroupAux_map (stamp n) _ _ (fun a b => by simp [stamp]) t a [a]

theorem getLast?_map {α β : Type} (f : α → β) : ∀ l : List α,
    (l.map f).getLast? = l.getLast?.map f := by
  intro l
  induction l with
  | nil => rfl
  | cons a t ih =>
    cases t with
    | nil => rfl
    | cons b u =>
      simp only [List.map_cons] at ih ⊢
      rw [List.getLast?_cons_cons, List.getLast?_cons_cons]
      exact ih

theorem mkClusterSignals_stamp (n : Int) (typ : String) :
    ∀ groups : List (List Signal),
      mkClusterSignals n typ (groups.map (List.map (stamp n))) =
        (mkClusterSignals 0 typ groups).map (stamp n) := by
  intro groups
  induction groups with
  | nil => rfl
  | cons g gs ih =>
    simp only [List.map_cons, mkClusterSignals, List.flatMap_cons] at ih ⊢
    rw [List.map_append, ih]
    congr 1
    rw [List.length_map]
    by_cases h3 : 3 ≤ g.length
    · rw [if_pos h3, if_pos h3, getLast?_map]
      cases hlast : g.getLast? with
      | none => rfl
      | some latest =>
        have hcomp : ((fun (x : Signal) => x.indicator) ∘ stamp n) =
            fun (x : Signal) => x.indicator := funext fun x => rfl
        simp [stamp, List.map_map, hcomp]
    · rw [if_neg h3, if_neg h3]; rfl

theorem filter_stamp_buy (n : Int) (l : List Signal) :
    (l.map (stamp n)).filter (fun s => s.type = "buy") =
      (l.filter (fun s => s.type = "buy")).map (stamp n) := by
  induction l with
  | nil => rfl
  | cons a t ih =>
    simp only [List.map_cons, List.filter_cons]
    have hp : (decide ((stamp n a).type = "buy")) = decide (a.type = "buy") := rfl
    rw [hp]
    cases h : decide (a.type = "buy") <;> simp [h, ih]

theorem filter_stamp_sell (n : Int) (l : List Signal) :
    (l.map (stamp n)).filter (fun s => s.type = "sell") =
      (l.filter (fun s => s.type = "sell")).map (stamp n) := by
  induction l with
  | nil => rfl
  | cons a t ih =>
    simp only [List.map_cons, List.filter_cons]
    have hp : (decide ((stamp n a).type = "sell")) = decide (a.type = "sell") := rfl
    rw [hp]
    cases h : decide (a.type = "sell") <;> simp [h, ih]

theorem detectClusterSignals_stamp (n : Int) (base : List Signal)
    (klines : List Candle) :
    detectClusterSignals n (base.map (stamp n)) klines =
      (detectClusterSignals 0 base klines).map (stamp n) := by
  simp only [detectClusterSignals, List.length_map]
  by_cases h2 : base.length < 2
  · rw [if_pos h2, if_pos h2]; rfl
  · rw [if_neg h2, if_neg h2]
    rw [filter_stamp_buy, filter_stamp_sell, List.length_map, List.length_map,
      sortByTimestamp_stamp, sortByTimestamp_stamp, groupSignalsByTime_stamp,
      groupSignalsByTime_stamp, mkClusterSignals_stamp, mkClusterSignals_stamp,
      List.map_append]
    congr 1 <;> (rw [apply_ite (List.map (stamp n))]; rfl)

theorem detectAllSignals_stamp (n : Int) (klines : List Candle) :
    detectAllSignals n klines = (detectAllSignals 0 klines).map (stamp n) := by
  simp only [detectAllSignals]
  by_cases h : klines.length < 50
  · rw [if_pos h, if_pos h]; rfl
  · rw [if_neg h, if_neg h]
    have hall : wtDetectSignals n klines ++ rsiDetectSignals n klines ++
        maDetectSignals n klines ++ breakoutDetectSignals n klines =
        (wtDetectSignals 0 klines ++ rsiDetectSignals 0 klines ++
         maDetectSignals 0 klines ++ breakoutDetectSignals 0 klines).map
          (stamp n) := by
      rw [rsiDetectSignals_stamp, maDetectSignals_stamp,
        breakoutDetectSignals_stamp, wtDetectSignals_eq_nil,
        wtDetectSignals_eq_nil]
      simp [List.map_append]
    rw [hall, detectClusterSignals_stamp n _ klines, ← List.map_append]

/-- C4: two runs of `detectAllSignals` on the same candle array agree on
every signal's `(type, price, timestamp, indicator, strength, meta)` tuple,
element for element; only `created_at` (stamped from the run's clock) can
differ. -/
theorem detectAllSignals_deterministic (klines : List Candle) (n₁ n₂ : Int) :
    (detectAllSignals n₁ klines).map sigView =
      (detectAllSignals n₂ klines).map sigView := by
  rw [detectAllSignals_stamp n₁ klines, detectAllSignals_stamp n₂ klines,
    List.map_map, List.map_map]
  congr 1

end CryptoDash
